import Mathlib

/-!
Verification development for the N-Sprite kinematic-decomposition pipeline.

The definitions below are a shallow embedding of the TypeScript sources:
  * the shared type module (Point/Rect/BBox/SVG primitives/pipeline records),
  * the atlas packing utilities (clampRel, clampBbox, calculatePartSizes,
    packRow, packGrid, packMaxRects, createAtlasPreparation),
  * the multi-agent pipeline orchestration (runWorker's self-correction loop,
    runWorkersOnly's batched worker pool, runDirectorOnly / retryDirector /
    runArchitectOnly / retryWorker / retryWorkerWithFeedback record effects,
    normalizeShape),
  * the hierarchy validator's cycle detection (useKinematics, check 4).

JavaScript numbers are idealized as exact rationals (ℚ); the square-root in
the row/maxrects scale estimate forces those two functions into ℝ.
`Math.round x` is modelled as `⌊x + 1/2⌋`, which is what the JS builtin
computes for every input.  External AI calls are modelled as oracle
parameters: a stage call either produces a parsed payload or fails with a
message (the code treats "no response" and "unparseable response" as the
same failure).  Timestamps, image payloads, prompt text and the append-only
api log / worker event history are observability-only data never read back
by the pipeline logic and are not part of the record model.
-/

namespace NSprite

/-! ## Basic geometry types (types module) -/

/-- Bounding box `[min_x, min_y, max_x, max_y]` (relative 0-1 or pixel). -/
structure BBoxQ where
  minX : ℚ
  minY : ℚ
  maxX : ℚ
  maxY : ℚ
  deriving DecidableEq

/-- Pixel/relative rectangle `{x, y, w, h}`. -/
structure RectQ where
  x : ℚ
  y : ℚ
  w : ℚ
  h : ℚ
  deriving DecidableEq

/-- Function `clampRel`: clamp a relative value to the 0-1 range
(`Math.max(0, Math.min(1, v))`). -/
def clampRel (v : ℚ) : ℚ := max 0 (min 1 v)

/-- Function `clampBbox`: clamp each bbox component. -/
def clampBbox (b : BBoxQ) : BBoxQ :=
  ⟨clampRel b.minX, clampRel b.minY, clampRel b.maxX, clampRel b.maxY⟩

/-- Helper `bboxToRect(bbox, size)` from the types module: convert a relative bbox
to a pixel rect. -/
def bboxToRect (b : BBoxQ) (size : ℚ) : RectQ :=
  ⟨b.minX * size, b.minY * size, (b.maxX - b.minX) * size, (b.maxY - b.minY) * size⟩

/-- A bbox whose four coordinates lie in `[0, 1]`. -/
def bboxIn01 (b : BBoxQ) : Prop :=
  0 ≤ b.minX ∧ b.minX ≤ 1 ∧ 0 ≤ b.minY ∧ b.minY ≤ 1 ∧
  0 ≤ b.maxX ∧ b.maxX ≤ 1 ∧ 0 ≤ b.maxY ∧ b.maxY ≤ 1

/-! ## SVG primitives and `normalizeShape` -/

/-- Tagged union of the four SVG primitives (all coordinates relative 0-1,
`rect` with optional corner radius, `path` with an SVG path string). -/
inductive SVGPrimitive where
  | circle (cx cy r : ℚ)
  | rect (x y width height : ℚ) (rx : Option ℚ)
  | ellipse (cx cy rx ry : ℚ)
  | path (d : String)
  deriving DecidableEq

/-- The duck-typed worker payload handed to `normalizeShape`: a `type` tag
plus the numeric fields the four variants may carry.  (A payload field the
service omitted is outside this numeric model; claim C9 is about the `type`
tag dispatch, which never reads the numeric fields in the default case.) -/
structure RawShape where
  type : String
  cx : ℚ := 0
  cy : ℚ := 0
  r : ℚ := 0
  x : ℚ := 0
  y : ℚ := 0
  width : ℚ := 0
  height : ℚ := 0
  rx : ℚ := 0
  ry : ℚ := 0
  d : String := ""
  deriving DecidableEq

/-- Function `normalizeShape`: map an arbitrary raw payload into the tagged union.
Unknown `type` tags fall through to the full-canvas rectangle. -/
def normalizeShape (raw : RawShape) : SVGPrimitive :=
  match raw.type with
  | "circle" => .circle raw.cx raw.cy raw.r
  | "rect" => .rect raw.x raw.y raw.width raw.height (some raw.rx)
  | "ellipse" => .ellipse raw.cx raw.cy raw.rx raw.ry
  | "path" => .path raw.d
  | _ => .rect 0 0 1 1 none

/-! ## Pipeline data model (types module) -/

inductive PartTypeHint where
  | wheel | limb | body | piston | joint | decoration | other
  deriving DecidableEq

inductive MovementType where
  | rotation | sliding | fixed | elastic
  deriving DecidableEq

/-- Director output entry (one candidate part).  The worker prompt accesses
`manifest.bbox` defensively (`manifest.bbox?.join(...) || 'unknown'`), so the
rough bounding box is optional here. -/
structure PartManifest where
  id : String
  name : String
  visual_anchor : ℚ × ℚ
  bbox : Option BBoxQ
  type_hint : PartTypeHint
  deriving DecidableEq

/-- Worker output: one unit's solved geometry. -/
structure WorkerGeometry where
  id : String
  shape : SVGPrimitive
  bbox : BBoxQ
  amodal_completed : Bool
  confidence : ℚ
  deriving DecidableEq

/-- Integer pixel rectangle produced by atlas packing (the packers round
every coordinate with `Math.round`). -/
structure AtlasRect where
  x : ℤ
  y : ℤ
  w : ℤ
  h : ℤ
  deriving DecidableEq

/-- Architect output entry (final rigged part). -/
structure GamePartE where
  id : String
  name : String
  parentId : Option String
  shape : SVGPrimitive
  bbox : BBoxQ
  pivot : ℚ × ℚ
  movementType : MovementType
  type_hint : PartTypeHint
  confidence : ℚ
  atlasRect : Option AtlasRect := none
  deriving DecidableEq

/-- Error entry for a failed worker. -/
structure WorkerErrorE where
  manifestId : String
  manifestName : String
  error : String
  retryCount : ℕ
  deriving DecidableEq

/-! ## Claim C8: clamping is a no-op on in-range input and idempotent -/

/-- C8.  Bounding-box clamping is a no-op on in-range boxes and idempotent,
and likewise for the underlying per-coordinate `clampRel`. -/
theorem clampBbox_noop_and_idempotent :
    (∀ b : BBoxQ, bboxIn01 b → clampBbox b = b) ∧
    (∀ b : BBoxQ, clampBbox (clampBbox b) = clampBbox b) ∧
    (∀ v : ℚ, 0 ≤ v → v ≤ 1 → clampRel v = v) ∧
    (∀ v : ℚ, clampRel (clampRel v) = clampRel v) := by
  have hnoop : ∀ v : ℚ, 0 ≤ v → v ≤ 1 → clampRel v = v := by
    intro v h0 h1
    simp [clampRel, min_eq_right h1, max_eq_right h0]
  have hidem : ∀ v : ℚ, clampRel (clampRel v) = clampRel v := by
    intro v
    apply hnoop
    · exact le_max_left 0 _
    · exact max_le (by norm_num) (min_le_left 1 v)
  refine ⟨?_, ?_, hnoop, hidem⟩
  · rintro ⟨a, b, c, d⟩ ⟨h1, h2, h3, h4, h5, h6, h7, h8⟩
    simp [clampBbox, hnoop a h1 h2, hnoop b h3 h4, hnoop c h5 h6, hnoop d h7 h8]
  · rintro ⟨a, b, c, d⟩
    simp [clampBbox, hidem]

/-- C8 witness: the theorem applied at concrete boxes and values. -/
theorem clampBbox_noop_and_idempotent_witness :
    clampBbox ⟨1/2, 0, 1, 3/4⟩ = ⟨1/2, 0, 1, 3/4⟩ ∧
    clampBbox (clampBbox ⟨-2, 3, 1/2, 7⟩) = clampBbox ⟨-2, 3, 1/2, 7⟩ ∧
    clampRel (9/10) = 9/10 ∧
    clampRel (clampRel 5) = clampRel 5 :=
  ⟨clampBbox_noop_and_idempotent.1 _ (by unfold bboxIn01; norm_num),
   clampBbox_noop_and_idempotent.2.1 _,
   clampBbox_noop_and_idempotent.2.2.1 _ (by norm_num) (by norm_num),
   clampBbox_noop_and_idempotent.2.2.2 _⟩

/-! ## Claim C9: `normalizeShape` is total and defaults unknown tags -/

/-- C9.  `normalizeShape` is a total function into the four-variant union
(it can never abort a unit's extraction), and any payload whose `type` is
none of `circle` / `rect` / `ellipse` / `path` is mapped to the full-canvas
rectangle `{x: 0, y: 0, width: 1, height: 1}`. -/
theorem normalizeShape_total_default (raw : RawShape)
    (hc : raw.type ≠ "circle") (hr : raw.type ≠ "rect")
    (he : raw.type ≠ "ellipse") (hp : raw.type ≠ "path") :
    normalizeShape raw = .rect 0 0 1 1 none := by
  unfold normalizeShape
  split
  · exact absurd (by assumption) hc
  · exact absurd (by assumption) hr
  · exact absurd (by assumption) he
  · exact absurd (by assumption) hp
  · rfl

/-- C9 witness: a structurally unexpected tag collapses to the default
rectangle rather than failing. -/
theorem normalizeShape_total_default_witness :
    normalizeShape { type := "polygon" } = .rect 0 0 1 1 none :=
  normalizeShape_total_default { type := "polygon" }
    (by decide) (by decide) (by decide) (by decide)

/-! ## Claim C10: `calculatePartSizes` clamps and floors the sizes -/

/-- Structure `PartWithSize`: a part together with its source-pixel dimensions. -/
structure PartWithSize where
  part : GamePartE
  index : ℕ
  srcW : ℚ
  srcH : ℚ
  deriving DecidableEq

/-- Function `calculatePartSizes`: clamp each part's bbox, convert it to pixels using
the image width, and floor both dimensions at 10 pixels. -/
def calculatePartSizes (parts : List GamePartE) (imgW : ℚ) : List PartWithSize :=
  parts.mapIdx (fun index part =>
    let clampedBbox := clampBbox part.bbox
    let bounds := bboxToRect clampedBbox imgW
    { part := { part with bbox := clampedBbox }
      index := index
      srcW := max 10 bounds.w
      srcH := max 10 bounds.h })

/-- C10.  Every part handed to the packing algorithms has its bbox clamped
to `[0, 1]` and both intrinsic dimensions floored at 10 pixels — in
particular strictly positive width and height (so the grid algorithm's
aspect-ratio division never divides by zero), even for degenerate or
out-of-range input boxes. -/
theorem calculatePartSizes_clamped_and_positive (parts : List GamePartE)
    (imgW : ℚ) (p : PartWithSize) (hp : p ∈ calculatePartSizes parts imgW) :
    (∃ q ∈ parts, p.part.bbox = clampBbox q.bbox) ∧
    bboxIn01 p.part.bbox ∧
    10 ≤ p.srcW ∧ 10 ≤ p.srcH ∧ 0 < p.srcW ∧ 0 < p.srcH := by
  unfold calculatePartSizes at hp
  rw [List.mem_iff_getElem] at hp
  obtain ⟨i, hi, hget⟩ := hp
  rw [List.getElem_mapIdx] at hget
  have hlen : i < parts.length := by
    simpa using hi
  have hclamp01 : ∀ b : BBoxQ, bboxIn01 (clampBbox b) := by
    intro b
    have h0 : ∀ v : ℚ, 0 ≤ clampRel v := fun v => le_max_left 0 _
    have h1 : ∀ v : ℚ, clampRel v ≤ 1 := by
      intro v
      apply max_le (by norm_num) (min_le_left 1 v)
    exact ⟨h0 _, h1 _, h0 _, h1 _, h0 _, h1 _, h0 _, h1 _⟩
  subst hget
  refine ⟨⟨parts[i], List.getElem_mem hlen, rfl⟩, hclamp01 _, le_max_left 10 _,
    le_max_left 10 _, ?_, ?_⟩
  · exact lt_of_lt_of_le (by norm_num) (le_max_left 10 _)
  · exact lt_of_lt_of_le (by norm_num) (le_max_left 10 _)

/-- A degenerate, out-of-range demo part (bbox has min ≥ max on both axes). -/
def degeneratePart : GamePartE :=
  { id := "p0", name := "degenerate", parentId := none
    shape := .circle (1/2) (1/2) (1/4)
    bbox := ⟨9/10, 12/10, 2/10, -5/10⟩
    pivot := (1/2, 1/2)
    movementType := .fixed, type_hint := .other, confidence := 1 }

/-- The sized entry `calculatePartSizes` produces for `degeneratePart`. -/
def degenerateSized : PartWithSize :=
  { part := { degeneratePart with bbox := ⟨9/10, 1, 1/5, 0⟩ }
    index := 0, srcW := 10, srcH := 10 }

/-- C10 witness: the theorem applied to a degenerate out-of-range part. -/
theorem calculatePartSizes_clamped_and_positive_witness :
    (∃ q ∈ [degeneratePart], degenerateSized.part.bbox = clampBbox q.bbox) ∧
    bboxIn01 degenerateSized.part.bbox ∧
    10 ≤ degenerateSized.srcW ∧ 10 ≤ degenerateSized.srcH ∧
    0 < degenerateSized.srcW ∧ 0 < degenerateSized.srcH :=
  calculatePartSizes_clamped_and_positive [degeneratePart] 1024 degenerateSized
    (by
      have : calculatePartSizes [degeneratePart] 1024 = [degenerateSized] := by
        simp only [calculatePartSizes, List.mapIdx_cons, List.mapIdx_nil,
          degeneratePart, degenerateSized, clampBbox, clampRel, bboxToRect]
        norm_num [max_def, min_def]
      rw [this]
      exact List.mem_singleton.mpr rfl)

/-! ## Worker self-correction loop (`runWorker`)

`runWorker` makes an initial generation call, then runs up to `MAX_TURNS = 3`
critique/refine rounds: each round composites the candidate over the source
image, asks for a verdict, stops on `GOOD`, otherwise re-generates from the
QA feedback.  The external calls are modelled by two oracles indexed by
turn number: `resultAt t` is the parsed payload of the generation call of
turn `t` (turn 0 is the initial generation) and `verdictAt t` is the
critique verdict of turn `t ∈ {1, 2, 3}`. -/

inductive Verdict where
  | good | improve
  deriving DecidableEq

/-- Parsed payload of one worker generation call. -/
structure RawWorkerResult where
  shape : RawShape
  bbox : BBoxQ
  amodal_completed : Bool
  confidence : ℚ
  deriving DecidableEq

/-- How `runWorker` builds its candidate geometry from a parsed payload:
the id comes from the manifest and the shape is normalized. -/
def mkGeometry (manifestId : String) (r : RawWorkerResult) : WorkerGeometry :=
  { id := manifestId
    shape := normalizeShape r.shape
    bbox := r.bbox
    amodal_completed := r.amodal_completed
    confidence := r.confidence }

def MAX_TURNS : ℕ := 3

/-- The `for (turn = 1; turn <= MAX_TURNS; turn++)` body of `runWorker`:
evaluate the current candidate; on `GOOD` break, otherwise replace the
candidate with the refinement payload of this turn and continue.  Returns
the final candidate and the number of critique rounds performed. -/
def runTurns (manifestId : String) (resultAt : ℕ → RawWorkerResult)
    (verdictAt : ℕ → Verdict) :
    List ℕ → WorkerGeometry → WorkerGeometry × ℕ
  | [], g => (g, 0)
  | t :: ts, g =>
    if verdictAt t = .good then (g, 1)
    else
      let rest := runTurns manifestId resultAt verdictAt ts
        (mkGeometry manifestId (resultAt t))
      (rest.1, rest.2 + 1)

/-- Model of `runWorker`'s geometry computation: initial generation at turn 0,
then the self-reflection loop over turns `1 .. MAX_TURNS`. -/
def runWorkerLoop (manifestId : String) (resultAt : ℕ → RawWorkerResult)
    (verdictAt : ℕ → Verdict) : WorkerGeometry × ℕ :=
  runTurns manifestId resultAt verdictAt
    ((List.range MAX_TURNS).map (· + 1))
    (mkGeometry manifestId (resultAt 0))

/-- C2.  For every unit and every sequence of critique verdicts, the
self-correction loop performs at most `MAX_TURNS = 3` critique rounds, and
if every verdict is `IMPROVE` the loop still terminates and returns the last
refined candidate (the geometry generated at turn 3) instead of failing. -/
theorem runWorkerLoop_bounded_and_returns_last (manifestId : String)
    (resultAt : ℕ → RawWorkerResult) (verdictAt : ℕ → Verdict) :
    (runWorkerLoop manifestId resultAt verdictAt).2 ≤ MAX_TURNS ∧
    ((∀ t, 1 ≤ t → t ≤ MAX_TURNS → verdictAt t = .improve) →
      (runWorkerLoop manifestId resultAt verdictAt).1 =
        mkGeometry manifestId (resultAt MAX_TURNS)) := by
  constructor
  · show (runTurns manifestId resultAt verdictAt [1, 2, 3] _).2 ≤ 3
    simp only [runTurns]
    split
    · norm_num
    · split
      · norm_num
      · split <;> norm_num
  · intro hall
    have h1 : verdictAt 1 = .improve := hall 1 (by norm_num) (by norm_num [MAX_TURNS])
    have h2 : verdictAt 2 = .improve := hall 2 (by norm_num) (by norm_num [MAX_TURNS])
    have h3 : verdictAt 3 = .improve := hall 3 (by norm_num) (by norm_num [MAX_TURNS])
    show (runTurns manifestId resultAt verdictAt [1, 2, 3] _).1 = _
    simp [runTurns, h1, h2, h3, MAX_TURNS]

/-- A demo generation oracle: the payload of turn `t` (only the confidence
differs per turn, which suffices to tell the candidates apart). -/
def demoRawAt (t : ℕ) : RawWorkerResult :=
  { shape := { type := "circle", cx := 1/2, cy := 1/2, r := 1/4 }
    bbox := ⟨0, 0, 1, 1⟩
    amodal_completed := false
    confidence := (t : ℚ) }

/-- C2 witness: a critique that always answers IMPROVE exhausts the three
rounds and yields the turn-3 candidate. -/
theorem runWorkerLoop_bounded_and_returns_last_witness :
    (runWorkerLoop "u1" demoRawAt (fun _ => .improve)).2 ≤ MAX_TURNS ∧
    (runWorkerLoop "u1" demoRawAt (fun _ => .improve)).1 =
      mkGeometry "u1" (demoRawAt MAX_TURNS) := by
  have h := runWorkerLoop_bounded_and_returns_last "u1" demoRawAt (fun _ => .improve)
  exact ⟨h.1, h.2 (fun t _ _ => rfl)⟩

/-! ## Worker pool (`runWorkersOnly`)

The pool splits the manifest list into batches of `BATCH_SIZE = 8`,
dispatches every unit of a batch, waits for all of them to settle
(`Promise.allSettled` — it never rejects, so one unit's failure cannot
cancel its siblings), then partitions the settled results: a fulfilled unit
is upserted into `workerOutputs` (keyed by its id), a rejected one is
recorded in `workerErrors` with the manifest id and the error message.
The settled outcome of one unit's `runWorker` promise is modelled by an
oracle `outcome : PartManifest → Except String RawWorkerResult`. -/

def BATCH_SIZE : ℕ := 8

/-- The `for (i = 0; i < manifests.length; i += BATCH_SIZE)` slicing. -/
def poolBatches (manifests : List PartManifest) : List (List PartManifest) :=
  if manifests = [] then []
  else manifests.take BATCH_SIZE :: poolBatches (manifests.drop BATCH_SIZE)
termination_by manifests.length
decreasing_by
  rename_i h
  have hlen : 0 < manifests.length := List.length_pos.mpr h
  simp only [List.length_drop, BATCH_SIZE]
  omega

/-- Re-concatenating the batches gives back the manifest list. -/
theorem poolBatches_flatten (manifests : List PartManifest) :
    (poolBatches manifests).flatten = manifests := by
  suffices H : ∀ n (ms : List PartManifest), ms.length ≤ n →
      (poolBatches ms).flatten = ms from H manifests.length manifests le_rfl
  intro n
  induction n with
  | zero =>
    intro ms h
    have hnil : ms = [] := List.eq_nil_of_length_eq_zero (Nat.le_zero.mp h)
    subst hnil
    rw [poolBatches]
    simp
  | succ n ih =>
    intro ms h
    by_cases hms : ms = []
    · subst hms
      rw [poolBatches]
      simp
    · rw [poolBatches, if_neg hms]
      have hlen : 0 < ms.length := List.length_pos.mpr hms
      have hdrop : (ms.drop BATCH_SIZE).length ≤ n := by
        simp only [List.length_drop, BATCH_SIZE]
        omega
      simp only [List.flatten_cons, ih _ hdrop, List.take_append_drop]

/-- Model of `runWorker`'s success path: replaces an existing output with the same id
(`findIndex` + assignment) or pushes a new one. -/
def upsertGeometry : List WorkerGeometry → WorkerGeometry → List WorkerGeometry
  | [], g => [g]
  | w :: ws, g => if w.id = g.id then g :: ws else w :: upsertGeometry ws g

/-- Pool result: the partition `{workerOutputs, workerErrors}`. -/
structure PoolResult where
  workerOutputs : List WorkerGeometry
  workerErrors : List WorkerErrorE
  deriving DecidableEq

/-- One settled result's effect on the accumulated worker outputs:
fulfilled results are upserted, rejected ones leave the outputs alone. -/
def poolStep (acc : List WorkerGeometry) : Except String WorkerGeometry → List WorkerGeometry
  | .ok g => upsertGeometry acc g
  | .error _ => acc

/-- Model of `runWorkersOnly`'s batching, settling and partitioning (the worker
output list starts cleared; each success is upserted in settlement order;
after all batches settle, the rejected entries are collected against the
manifest at the same position). -/
def runPool (manifests : List PartManifest)
    (outcome : PartManifest → Except String RawWorkerResult) : PoolResult :=
  let settled := (poolBatches manifests).flatMap
    (fun chunk => chunk.map (fun m => (outcome m).map (mkGeometry m.id)))
  { workerOutputs := settled.foldl poolStep []
    workerErrors := (manifests.zip settled).filterMap
      (fun p => match p.2 with
        | .error msg => some ⟨p.1.id, p.1.name, msg, 0⟩
        | .ok _ => none) }

/-- The pool's success contribution of one unit. -/
def poolSuccess (outcome : PartManifest → Except String RawWorkerResult)
    (m : PartManifest) : Option WorkerGeometry :=
  match outcome m with
  | .ok raw => some (mkGeometry m.id raw)
  | .error _ => none

/-- The pool's error contribution of one unit. -/
def poolError (outcome : PartManifest → Except String RawWorkerResult)
    (m : PartManifest) : Option WorkerErrorE :=
  match outcome m with
  | .error msg => some ⟨m.id, m.name, msg, 0⟩
  | .ok _ => none

theorem flatMap_map_eq {α β : Type} (l : List (List α)) (f : α → β) :
    l.flatMap (fun c => c.map f) = l.flatten.map f := by
  induction l with
  | nil => simp
  | cons c cs ih => simp [ih]

theorem except_map_ok {ε α β : Type} (f : α → β) (x : α) :
    Except.map f (Except.ok (ε := ε) x) = .ok (f x) := rfl

theorem except_map_error {ε α β : Type} (f : α → β) (e : ε) :
    Except.map f (Except.error (α := α) e) = .error (α := β) e := rfl

theorem zip_self_map {α β : Type} (l : List α) (f : α → β) :
    l.zip (l.map f) = l.map (fun a => (a, f a)) := by
  induction l with
  | nil => rfl
  | cons a l ih => simp [ih]

/-- The settled results align one-to-one with the manifests. -/
theorem runPool_settled (manifests : List PartManifest)
    (outcome : PartManifest → Except String RawWorkerResult) :
    (poolBatches manifests).flatMap
        (fun chunk => chunk.map (fun m => (outcome m).map (mkGeometry m.id))) =
      manifests.map (fun m => (outcome m).map (mkGeometry m.id)) := by
  rw [flatMap_map_eq, poolBatches_flatten]

theorem upsertGeometry_of_not_mem (acc : List WorkerGeometry) (g : WorkerGeometry)
    (h : ∀ w ∈ acc, w.id ≠ g.id) : upsertGeometry acc g = acc ++ [g] := by
  induction acc with
  | nil => rfl
  | cons w ws ih =>
    rw [upsertGeometry, if_neg (h w (List.mem_cons_self w ws))]
    simp only [List.cons_append, List.cons.injEq, true_and]
    exact ih (fun w' hw' => h w' (List.mem_cons_of_mem w hw'))

theorem runPool_outputs_foldl (outcome : PartManifest → Except String RawWorkerResult) :
    ∀ (ms : List PartManifest) (acc : List WorkerGeometry),
      (ms.map (·.id)).Nodup →
      (∀ w ∈ acc, ∀ m ∈ ms, w.id ≠ m.id) →
      (ms.map (fun m => (outcome m).map (mkGeometry m.id))).foldl poolStep acc =
        acc ++ ms.filterMap (poolSuccess outcome) := by
  intro ms
  induction ms with
  | nil => intro acc _ _; simp
  | cons m ms ih =>
    intro acc hnodup hdisj
    have hnodup' : (ms.map (·.id)).Nodup := (List.nodup_cons.mp hnodup).2
    have hm_not : m.id ∉ ms.map (·.id) := (List.nodup_cons.mp hnodup).1
    simp only [List.map_cons, List.foldl_cons, List.filterMap_cons]
    cases houtcome : outcome m with
    | ok raw =>
      have hup : upsertGeometry acc (mkGeometry m.id raw) = acc ++ [mkGeometry m.id raw] :=
        upsertGeometry_of_not_mem acc _
          (fun w hw => hdisj w hw m (List.mem_cons_self m ms))
      have hps : poolSuccess outcome m = some (mkGeometry m.id raw) := by
        simp [poolSuccess, houtcome]
      simp only [houtcome, except_map_ok, poolStep, hup, hps]
      rw [ih (acc ++ [mkGeometry m.id raw]) hnodup' ?_]
      · simp
      · intro w hw m' hm'
        rcases List.mem_append.mp hw with hw | hw
        · exact hdisj w hw m' (List.mem_cons_of_mem m hm')
        · have hweq : w = mkGeometry m.id raw := List.mem_singleton.mp hw
          subst hweq
          intro hc
          apply hm_not
          have hcm : m.id = m'.id := hc
          rw [hcm]
          exact List.mem_map_of_mem (·.id) hm'
    | error msg =>
      have hps : poolSuccess outcome m = none := by
        simp [poolSuccess, houtcome]
      simp only [houtcome, except_map_error, poolStep, hps]
      rw [ih acc hnodup' (fun w hw m' hm' => hdisj w hw m' (List.mem_cons_of_mem m hm'))]

/-- With unique ids, `workerOutputs` is exactly the per-manifest success
contributions in order. -/
theorem runPool_outputs_char (manifests : List PartManifest)
    (outcome : PartManifest → Except String RawWorkerResult)
    (hnodup : (manifests.map (·.id)).Nodup) :
    (runPool manifests outcome).workerOutputs =
      manifests.filterMap (poolSuccess outcome) := by
  unfold runPool
  simp only [runPool_settled]
  rw [runPool_outputs_foldl outcome manifests [] hnodup (by simp)]
  simp

/-- List `workerErrors` is exactly the per-manifest error contributions in order. -/
theorem runPool_errors_char (manifests : List PartManifest)
    (outcome : PartManifest → Except String RawWorkerResult) :
    (runPool manifests outcome).workerErrors =
      manifests.filterMap (poolError outcome) := by
  unfold runPool
  simp only [runPool_settled]
  rw [zip_self_map manifests (fun m => (outcome m).map (mkGeometry m.id)), List.filterMap_map]
  apply List.filterMap_congr
  intro m _
  cases houtcome : outcome m <;> simp [Except.map, houtcome, poolError]

/-- A unit whose id equals `k` contributes nothing to the outputs filtered
away from `k`. -/
theorem filter_filterMap_success_cons
    (o : PartManifest → Except String RawWorkerResult) (m : PartManifest)
    (ms : List PartManifest) (k : String) (hk : m.id = k) :
    ((m :: ms).filterMap (poolSuccess o)).filter (fun g => g.id ≠ k) =
      (ms.filterMap (poolSuccess o)).filter (fun g => g.id ≠ k) := by
  rw [List.filterMap_cons]
  cases ho : o m with
  | ok raw =>
    have : poolSuccess o m = some (mkGeometry m.id raw) := by simp [poolSuccess, ho]
    rw [this]
    dsimp only
    rw [List.filter_cons]
    simp [mkGeometry, hk]
  | error msg =>
    have : poolSuccess o m = none := by simp [poolSuccess, ho]
    rw [this]

/-- A unit whose id equals `k` contributes nothing to the errors filtered
away from `k`. -/
theorem filter_filterMap_error_cons
    (o : PartManifest → Except String RawWorkerResult) (m : PartManifest)
    (ms : List PartManifest) (k : String) (hk : m.id = k) :
    ((m :: ms).filterMap (poolError o)).filter (fun e => e.manifestId ≠ k) =
      (ms.filterMap (poolError o)).filter (fun e => e.manifestId ≠ k) := by
  rw [List.filterMap_cons]
  cases ho : o m with
  | ok raw =>
    have : poolError o m = none := by simp [poolError, ho]
    rw [this]
  | error msg =>
    have : poolError o m = some ⟨m.id, m.name, msg, 0⟩ := by simp [poolError, ho]
    rw [this]
    dsimp only
    rw [List.filter_cons]
    simp [hk]

/-- C3.  After all batches settle, every unit of the manifest appears either
in `workerOutputs` (success, keyed by its id) or in `workerErrors` (failure,
with its id and error message); and a unit's failure leaves every other
unit's contribution unaffected: if two outcome assignments agree on all
units other than `k`, the pool results restricted to ids other than `k`
coincide. -/
theorem workerPool_partition_isolated (manifests : List PartManifest)
    (o1 o2 : PartManifest → Except String RawWorkerResult) (k : String)
    (hnodup : (manifests.map (·.id)).Nodup)
    (hagree : ∀ m ∈ manifests, m.id ≠ k → o1 m = o2 m) :
    (∀ m ∈ manifests,
      (∃ raw, o1 m = .ok raw ∧ mkGeometry m.id raw ∈ (runPool manifests o1).workerOutputs) ∨
      (∃ msg, o1 m = .error msg ∧
        (⟨m.id, m.name, msg, 0⟩ : WorkerErrorE) ∈ (runPool manifests o1).workerErrors)) ∧
    (runPool manifests o1).workerOutputs.filter (fun g => g.id ≠ k) =
      (runPool manifests o2).workerOutputs.filter (fun g => g.id ≠ k) ∧
    (runPool manifests o1).workerErrors.filter (fun e => e.manifestId ≠ k) =
      (runPool manifests o2).workerErrors.filter (fun e => e.manifestId ≠ k) := by
  rw [runPool_outputs_char manifests o1 hnodup, runPool_outputs_char manifests o2 hnodup,
    runPool_errors_char manifests o1, runPool_errors_char manifests o2]
  refine ⟨?_, ?_, ?_⟩
  · intro m hm
    cases houtcome : o1 m with
    | ok raw =>
      left
      refine ⟨raw, rfl, List.mem_filterMap.mpr ⟨m, hm, ?_⟩⟩
      simp [poolSuccess, houtcome]
    | error msg =>
      right
      refine ⟨msg, rfl, List.mem_filterMap.mpr ⟨m, hm, ?_⟩⟩
      simp [poolError, houtcome]
  · clear hnodup
    induction manifests with
    | nil => simp
    | cons m ms ih =>
      have hagree' : ∀ m' ∈ ms, m'.id ≠ k → o1 m' = o2 m' :=
        fun m' hm' => hagree m' (List.mem_cons_of_mem m hm')
      by_cases hk : m.id = k
      · rw [filter_filterMap_success_cons o1 m ms k hk,
          filter_filterMap_success_cons o2 m ms k hk]
        exact ih hagree'
      · have heq : o1 m = o2 m := hagree m (List.mem_cons_self m ms) hk
        have hswap : poolSuccess o2 m = poolSuccess o1 m := by simp [poolSuccess, heq]
        rw [List.filterMap_cons, List.filterMap_cons, hswap]
        cases h1 : poolSuccess o1 m with
        | some g =>
          dsimp only
          rw [List.filter_cons, List.filter_cons, ih hagree']
        | none =>
          dsimp only
          exact ih hagree'
  · clear hnodup
    induction manifests with
    | nil => simp
    | cons m ms ih =>
      have hagree' : ∀ m' ∈ ms, m'.id ≠ k → o1 m' = o2 m' :=
        fun m' hm' => hagree m' (List.mem_cons_of_mem m hm')
      by_cases hk : m.id = k
      · rw [filter_filterMap_error_cons o1 m ms k hk,
          filter_filterMap_error_cons o2 m ms k hk]
        exact ih hagree'
      · have heq : o1 m = o2 m := hagree m (List.mem_cons_self m ms) hk
        have hswap : poolError o2 m = poolError o1 m := by simp [poolError, heq]
        rw [List.filterMap_cons, List.filterMap_cons, hswap]
        cases h1 : poolError o1 m with
        | some e =>
          dsimp only
          rw [List.filter_cons, List.filter_cons, ih hagree']
        | none =>
          dsimp only
          exact ih hagree'

def demoManifest1 : PartManifest :=
  ⟨"u1", "Unit One", (1/2, 1/2), some ⟨0, 0, 1, 1⟩, .wheel⟩

def demoManifest2 : PartManifest :=
  ⟨"u2", "Unit Two", (1/4, 1/4), none, .body⟩

/-- Demo outcome assignment under which unit u2 fails. -/
def demoOutcomeFail : PartManifest → Except String RawWorkerResult :=
  fun m => if m.id = "u2" then .error "boom" else .ok (demoRawAt 0)

/-- Demo outcome assignment under which every unit succeeds. -/
def demoOutcomeOk : PartManifest → Except String RawWorkerResult :=
  fun _ => .ok (demoRawAt 0)

/-- C3 witness: unit u2 fails under the first outcome assignment and
succeeds under the second; the partition covers both units and the results
for u1 agree across the two runs. -/
theorem workerPool_partition_isolated_witness :
    (∀ m ∈ [demoManifest1, demoManifest2],
      (∃ raw, demoOutcomeFail m = .ok raw ∧
        mkGeometry m.id raw ∈
          (runPool [demoManifest1, demoManifest2] demoOutcomeFail).workerOutputs) ∨
      (∃ msg, demoOutcomeFail m = .error msg ∧
        (⟨m.id, m.name, msg, 0⟩ : WorkerErrorE) ∈
          (runPool [demoManifest1, demoManifest2] demoOutcomeFail).workerErrors)) ∧
    (runPool [demoManifest1, demoManifest2] demoOutcomeFail).workerOutputs.filter
        (fun g => g.id ≠ "u2") =
      (runPool [demoManifest1, demoManifest2] demoOutcomeOk).workerOutputs.filter
        (fun g => g.id ≠ "u2") ∧
    (runPool [demoManifest1, demoManifest2] demoOutcomeFail).workerErrors.filter
        (fun e => e.manifestId ≠ "u2") =
      (runPool [demoManifest1, demoManifest2] demoOutcomeOk).workerErrors.filter
        (fun e => e.manifestId ≠ "u2") :=
  workerPool_partition_isolated [demoManifest1, demoManifest2]
    demoOutcomeFail demoOutcomeOk "u2"
    (by simp [demoManifest1, demoManifest2])
    (by
      intro m hm hne
      rcases List.mem_pair.mp hm with h | h <;> subst h
      · simp [demoOutcomeFail, demoOutcomeOk, demoManifest1]
      · exact absurd rfl hne)

/-! ## Pipeline record and stage entry points

The module-level `debugData` record aggregates the stage outputs.  The
orchestration entry points mutate it as follows (external calls again
appear as `Except` oracle arguments standing for the settled stage call):

  * `runDirectorOnly` resets the whole record to empty, then runs the
    director; a successful director call stores the manifest and clears the
    downstream worker/architect outputs, a failed one leaves the record as
    the call found it (which, through this entry point, is the freshly
    reset record).
  * `retryDirector` forwards to `runDirector` without the reset.
  * `runArchitectOnly` replaces the stored worker outputs with its argument
    and clears the architect output before calling the architect;
    `retryArchitect` calls the architect directly.
  * `retryWorker` (fresh mode) re-runs one unit: a success upserts that
    unit's geometry; a failure bumps the first matching error entry's
    `retryCount` and stores the new message.  `retryWorkerWithFeedback`
    (conversational mode) re-runs the unit — a success additionally drops
    the unit's error entries — but its `catch` block returns `null` without
    touching the record. -/

structure DebugRecord where
  directorOutput : Option (List PartManifest)
  workerOutputs : List WorkerGeometry
  workerErrors : List WorkerErrorE
  architectOutput : Option (List GamePartE)
  deriving DecidableEq

/-- The empty record `runDirectorOnly` resets to. -/
def resetRecord : DebugRecord := ⟨none, [], [], none⟩

/-- Model of `runDirector`'s record effect: success replaces the director output and
invalidates the downstream stages; failure propagates without mutating. -/
def runDirectorModel (r : DebugRecord) (call : Except String (List PartManifest)) :
    Except String (List PartManifest) × DebugRecord :=
  match call with
  | .ok res => (.ok res, { r with
      directorOutput := some res
      workerOutputs := []
      workerErrors := []
      architectOutput := none })
  | .error msg => (.error msg, r)

/-- Model of `runDirectorOnly`: reset the record, then run the director fresh. -/
def runDirectorOnlyModel (_r : DebugRecord) (call : Except String (List PartManifest)) :
    Except String (List PartManifest) × DebugRecord :=
  runDirectorModel resetRecord call

/-- Wrapper `retryDirector` forwards to `runDirector` on the current record. -/
def retryDirectorModel (r : DebugRecord) (call : Except String (List PartManifest)) :
    Except String (List PartManifest) × DebugRecord :=
  runDirectorModel r call

/-- Model of `runArchitect`'s record effect: success stores the architect output
(rigging joined with the stored geometries), failure propagates without
mutating.  The payload abstracts the parsed-and-joined part list; a join
failure (missing geometry/manifest for a rigging id) is one more way the
call errors. -/
def runArchitectModel (r : DebugRecord) (call : Except String (List GamePartE)) :
    Except String (List GamePartE) × DebugRecord :=
  match call with
  | .ok parts => (.ok parts, { r with architectOutput := some parts })
  | .error msg => (.error msg, r)

/-- Model of `runArchitectOnly`: replace the stored worker outputs by the argument,
clear the architect output, require a director output, then run. -/
def runArchitectOnlyModel (r : DebugRecord) (newWorkerOutputs : List WorkerGeometry)
    (call : Except String (List GamePartE)) :
    Except String (List GamePartE) × DebugRecord :=
  let r1 : DebugRecord := { r with workerOutputs := newWorkerOutputs, architectOutput := none }
  match r1.directorOutput with
  | none => (.error "No director output found", r1)
  | some _ => runArchitectModel r1 call

/-- Wrapper `retryArchitect` calls `runArchitect` on the current record. -/
def retryArchitectModel (r : DebugRecord) (call : Except String (List GamePartE)) :
    Except String (List GamePartE) × DebugRecord :=
  runArchitectModel r call

/-- Model of `runWorker`'s record effect for a single unit (the per-unit loop of
C2 settles into `call`): success filters the unit's error entries in
conversational mode and upserts the geometry; failure propagates. -/
def runWorkerRecordEffect (r : DebugRecord) (m : PartManifest) (conversational : Bool)
    (call : Except String RawWorkerResult) :
    Except String WorkerGeometry × DebugRecord :=
  match call with
  | .ok raw =>
    let g := mkGeometry m.id raw
    let r1 := if conversational then
        { r with workerErrors := r.workerErrors.filter (fun e => e.manifestId ≠ m.id) }
      else r
    (.ok g, { r1 with workerOutputs := upsertGeometry r1.workerOutputs g })
  | .error msg => (.error msg, r)

/-- Model of `retryWorker`'s catch block: bump the first matching error entry in
place and store the new message. -/
def bumpFirstError : List WorkerErrorE → String → String → List WorkerErrorE
  | [], _, _ => []
  | e :: es, id, msg =>
    if e.manifestId = id then
      { e with retryCount := e.retryCount + 1, error := msg } :: es
    else e :: bumpFirstError es id msg

/-- Model of `retryWorker(imageBase64, manifestId)`: fresh re-run of one unit. -/
def retryWorkerModel (r : DebugRecord) (manifestId : String)
    (call : Except String RawWorkerResult) : Option WorkerGeometry × DebugRecord :=
  match (r.directorOutput.getD []).find? (fun m => m.id = manifestId) with
  | none => (none, r)
  | some m =>
    match runWorkerRecordEffect r m false call with
    | (.ok g, r1) => (some g, r1)
    | (.error msg, r1) =>
      (none, { r1 with workerErrors := bumpFirstError r1.workerErrors manifestId msg })

/-- Model of `retryWorkerWithFeedback(imageBase64, manifestId, options)`:
conversational re-run of one unit; the catch block only returns `null`. -/
def retryWorkerWithFeedbackModel (r : DebugRecord) (manifestId : String)
    (call : Except String RawWorkerResult) : Option WorkerGeometry × DebugRecord :=
  match (r.directorOutput.getD []).find? (fun m => m.id = manifestId) with
  | none => (none, r)
  | some m =>
    match runWorkerRecordEffect r m true call with
    | (.ok g, r1) => (some g, r1)
    | (.error _, r1) => (none, r1)

/-! ## Claim C4: stage-level failure semantics -/

/-- A populated demo record (a previously completed pipeline). -/
def demoRecord : DebugRecord :=
  { directorOutput := some [demoManifest1, demoManifest2]
    workerOutputs := [mkGeometry "u1" (demoRawAt 0), mkGeometry "u2" (demoRawAt 1)]
    workerErrors := []
    architectOutput := some [degeneratePart] }

/-- C4 counterexample: `runDirectorOnly` resets the record before its
external call, so when that call fails the previously recorded outputs are
wiped rather than left "exactly as they were before the failed
invocation". -/
theorem stageFailure_preserves_record_counterexample :
    (runDirectorOnlyModel demoRecord (.error "no response")).2.directorOutput = none ∧
    demoRecord.directorOutput = some [demoManifest1, demoManifest2] ∧
    (runDirectorOnlyModel demoRecord (.error "no response")).2.directorOutput ≠
      demoRecord.directorOutput :=
  ⟨rfl, rfl, by simp [runDirectorOnlyModel, runDirectorModel, resetRecord, demoRecord]⟩

/-- C4 (amended).  A stage-level call failure is fatal to that stage
invocation but leaves the pipeline record unchanged through the retry entry
points (`retryDirector`, `retryArchitect`), so the caller can retry from the
prior state; the fresh-run entry `runDirectorOnly` instead resets the record
on entry, so a failure there leaves the freshly reset record. -/
theorem stageFailure_retry_preserves_record (r : DebugRecord) (msg : String) :
    (retryDirectorModel r (.error msg)).2 = r ∧
    (retryArchitectModel r (.error msg)).2 = r ∧
    (retryDirectorModel r (.error msg)).1 = .error msg ∧
    (retryArchitectModel r (.error msg)).1 = .error msg ∧
    (runDirectorOnlyModel r (.error msg)).2 = resetRecord :=
  ⟨rfl, rfl, rfl, rfl, rfl⟩

/-! ## Claim C6: retrying a single unit -/

/-- A demo record in which unit u1 has a recorded error with retry count 0
and unit u2 has a recorded geometry. -/
def demoRecordWithError : DebugRecord :=
  { directorOutput := some [demoManifest1, demoManifest2]
    workerOutputs := [mkGeometry "u2" (demoRawAt 1)]
    workerErrors := [⟨"u1", "Unit One", "old failure", 0⟩]
    architectOutput := none }

/-- C6 evaluation at the failing input.  A failed feedback-mode retry of
unit u1 leaves the record untouched — in particular the unit's
`retryCount` stays 0 and the new error message is dropped — whereas the
fresh-mode retry of the very same unit increments the count and stores the
message (and both modes leave the other unit's geometry unchanged). -/
theorem retryUnit_feedback_failure_drops_error :
    (retryWorkerWithFeedbackModel demoRecordWithError "u1" (.error "second failure")).2 =
      demoRecordWithError ∧
    (retryWorkerModel demoRecordWithError "u1" (.error "second failure")).2.workerErrors =
      [⟨"u1", "Unit One", "second failure", 1⟩] ∧
    (retryWorkerModel demoRecordWithError "u1" (.error "second failure")).2.workerOutputs =
      demoRecordWithError.workerOutputs := by
  refine ⟨?_, ?_, ?_⟩ <;>
    simp [retryWorkerWithFeedbackModel, retryWorkerModel, runWorkerRecordEffect,
      bumpFirstError, demoRecordWithError, demoManifest1, demoManifest2, List.find?]

/-! ## Hierarchy validator: cycle detection (useKinematics, check 4)

The validator builds `partsById = new Map(parts.map(p => [p.id, p]))` (later
entries overwrite earlier ones) and runs a depth-first traversal with a
`visited` set and a recursion stack over the `parentId` edges, pushing an
`error` issue for every frame of the unwinding path when a cycle is hit.
JS sets are modelled as lists without duplicates by construction; the
JS truthiness test `if (part?.parentId)` treats the empty string like a
missing parent. -/

inductive IssueSeverity where
  | error | warning
  deriving DecidableEq

structure ValidationIssue where
  type : IssueSeverity
  partId : String
  message : String
  deriving DecidableEq

/-- The issue text pushed by the cycle check. -/
def cycleMessage (partId : String) : String :=
  "Circular dependency detected involving \"" ++ partId ++ "\""

/-- Lookup `partsById.get`: the last part with the given id wins, as in a JS `Map`
built from an entry list. -/
def partsById : List GamePartE → String → Option GamePartE
  | [], _ => none
  | p :: ps, pid =>
    match partsById ps pid with
    | some q => some q
    | none => if p.id = pid then some p else none

/-- The parent reference the traversal follows (`if (part?.parentId)`):
a missing part, a null parent or an empty-string parent stop the walk. -/
def parentRef (p : GamePartE) : Option String :=
  match p.parentId with
  | some q => if q = "" then none else some q
  | none => none

def parentF (parts : List GamePartE) (pid : String) : Option String :=
  (partsById parts pid).bind parentRef

/-- The mutable state of check 4: `visited`, the recursion stack, and the
issue list being accumulated. -/
structure CycleState where
  visited : List String
  stack : List String
  issues : List ValidationIssue

/-- Number of part ids not yet visited — the quantity each recursive call
strictly decreases. -/
def cycleMeasure (parts : List GamePartE) (visited : List String) : ℕ :=
  ((parts.map (·.id)).filter (fun x => x ∉ visited)).length

theorem partsById_some : ∀ {parts : List GamePartE} {pid : String} {p : GamePartE},
    partsById parts pid = some p → p ∈ parts ∧ p.id = pid := by
  intro parts
  induction parts with
  | nil => intro pid p h; exact absurd h (by simp [partsById])
  | cons q qs ih =>
    intro pid p h
    rw [partsById] at h
    cases hq : partsById qs pid with
    | some p2 =>
      rw [hq] at h
      injection h with h2
      subst h2
      obtain ⟨hmem, hid⟩ := ih hq
      exact ⟨List.mem_cons_of_mem _ hmem, hid⟩
    | none =>
      rw [hq] at h
      by_cases hqid : q.id = pid
      · rw [if_pos hqid] at h
        injection h with h2
        subst h2
        exact ⟨List.mem_cons_self _ _, hqid⟩
      · rw [if_neg hqid] at h
        cases h

theorem parentF_some_mem {parts : List GamePartE} {pid q : String}
    (h : parentF parts pid = some q) : pid ∈ parts.map (·.id) := by
  unfold parentF at h
  cases hp : partsById parts pid with
  | none => rw [hp] at h; cases h
  | some p =>
    obtain ⟨hmem, hid⟩ := partsById_some hp
    rw [← hid]
    exact List.mem_map_of_mem (·.id) hmem

theorem notMem_cons_imp (a x : String) (v : List String)
    (hx : decide (x ∉ a :: v) = true) : decide (x ∉ v) = true := by
  simp only [decide_eq_true_eq] at hx ⊢
  exact fun hc => hx (List.mem_cons_of_mem a hc)

theorem cycleMeasure_lt (parts : List GamePartE) (visited : List String)
    (a : String) (ha : a ∈ parts.map (·.id)) (hav : a ∉ visited) :
    cycleMeasure parts (a :: visited) < cycleMeasure parts visited := by
  unfold cycleMeasure
  rw [← List.countP_eq_length_filter, ← List.countP_eq_length_filter]
  obtain ⟨l1, l2, hsplit⟩ := List.append_of_mem ha
  rw [hsplit, List.countP_append, List.countP_cons, List.countP_append, List.countP_cons]
  have hm1 : l1.countP (fun x => x ∉ a :: visited) ≤ l1.countP (fun x => x ∉ visited) :=
    List.countP_mono_left (fun x _ => notMem_cons_imp a x visited)
  have hm2 : l2.countP (fun x => x ∉ a :: visited) ≤ l2.countP (fun x => x ∉ visited) :=
    List.countP_mono_left (fun x _ => notMem_cons_imp a x visited)
  have hpa : (decide (a ∉ a :: visited)) = false := by
    simp
  have hqa : (decide (a ∉ visited)) = true := by
    simpa using hav
  rw [hpa, hqa]
  simp only [Bool.false_eq_true, if_false, if_true]
  omega

/-- Function `detectCycle(partId)` (check 4 of the validator), with the three pieces
of mutable state made explicit.  Hitting the recursion stack reports a
cycle; a previously visited id is skipped; otherwise the id is pushed on
both sets and the walk follows the parent edge: a cycle report from the
recursive call appends this frame's error issue and propagates `true`
(without popping the stack, as in the source), a clean return pops the
stack. -/
def detectCycle (parts : List GamePartE) (s : CycleState) (partId : String) :
    Bool × CycleState :=
  if h1 : partId ∈ s.stack then (true, s)
  else if h2 : partId ∈ s.visited then (false, s)
  else
    let s1 : CycleState := ⟨partId :: s.visited, partId :: s.stack, s.issues⟩
    match h : parentF parts partId with
    | some pid =>
      let r := detectCycle parts s1 pid
      if r.1 then
        (true, { r.2 with issues := r.2.issues ++ [⟨.error, partId, cycleMessage partId⟩] })
      else
        (false, { r.2 with stack := r.2.stack.erase partId })
    | none => (false, { s1 with stack := s1.stack.erase partId })
termination_by cycleMeasure parts s.visited
decreasing_by
  exact cycleMeasure_lt parts s.visited partId (parentF_some_mem h) h2

/-- Running `parts.forEach(p => detectCycle(p.id))` with the issues read off at the
end: the cycle-related issues the validator reports. -/
def runCycleCheck (parts : List GamePartE) : List ValidationIssue :=
  (parts.foldl (fun s p => (detectCycle parts s p.id).2) ⟨[], [], []⟩).issues

/-! Semantic reachability over the induced parent graph. -/

/-- One `parentId` edge (as the traversal resolves it). -/
def ParentStep (parts : List GamePartE) (a b : String) : Prop :=
  parentF parts a = some b

/-- Reachability through `parentId` edges (zero or more steps). -/
def Reaches (parts : List GamePartE) : String → String → Prop :=
  Relation.ReflTransGen (ParentStep parts)

/-- Id `a` lies on a cycle: it reaches itself in at least one step. -/
def OnCycle (parts : List GamePartE) (a : String) : Prop :=
  ∃ b, ParentStep parts a b ∧ Reaches parts b a

/-- Id `a` reaches some id lying on a cycle. -/
def ReachesCycle (parts : List GamePartE) (a : String) : Prop :=
  ∃ c, Reaches parts a c ∧ OnCycle parts c

/-- The part list contains an induced cycle. -/
def HasCycle (parts : List GamePartE) : Prop :=
  ∃ a, OnCycle parts a

/-- An issue list containing an error-severity issue naming an id on a
cycle. -/
def GoodIssues (parts : List GamePartE) (issues : List ValidationIssue) : Prop :=
  ∃ issue ∈ issues, issue.type = .error ∧ OnCycle parts issue.partId

/-- The invariant relating a call's id to the recursion stack: consecutive
stack entries are parent edges (newest first) and the id under examination
is the parent of the newest entry. -/
def Linked (parts : List GamePartE) (partId : String) (stack : List String) : Prop :=
  stack.Chain' (fun a b => parentF parts b = some a) ∧
  ∀ h ∈ stack.head?, parentF parts h = some partId

/-! Branch-rewriting lemmas for `detectCycle`. -/

theorem detectCycle_stack_hit {parts : List GamePartE} {s : CycleState} {partId : String}
    (hstack : partId ∈ s.stack) : detectCycle parts s partId = (true, s) := by
  rw [detectCycle]
  exact dif_pos hstack

theorem detectCycle_visited_hit {parts : List GamePartE} {s : CycleState} {partId : String}
    (hstack : partId ∉ s.stack) (hvis : partId ∈ s.visited) :
    detectCycle parts s partId = (false, s) := by
  rw [detectCycle, dif_neg hstack]
  exact dif_pos hvis

theorem detectCycle_some_true {parts : List GamePartE} {s : CycleState} {partId pid : String}
    (hstack : partId ∉ s.stack) (hvis : partId ∉ s.visited)
    (hpf : parentF parts partId = some pid)
    (hr : (detectCycle parts ⟨partId :: s.visited, partId :: s.stack, s.issues⟩ pid).1 = true) :
    detectCycle parts s partId =
      (true, { (detectCycle parts ⟨partId :: s.visited, partId :: s.stack, s.issues⟩ pid).2 with
        issues := (detectCycle parts ⟨partId :: s.visited, partId :: s.stack, s.issues⟩ pid).2.issues
          ++ [⟨.error, partId, cycleMessage partId⟩] }) := by
  rw [detectCycle, dif_neg hstack, dif_neg hvis]
  split
  · rename_i pid2 hpf2
    rw [hpf] at hpf2
    injection hpf2 with he
    subst he
    rw [if_pos hr]
  · rename_i hpf2
    rw [hpf] at hpf2
    cases hpf2

theorem detectCycle_some_false {parts : List GamePartE} {s : CycleState} {partId pid : String}
    (hstack : partId ∉ s.stack) (hvis : partId ∉ s.visited)
    (hpf : parentF parts partId = some pid)
    (hr : (detectCycle parts ⟨partId :: s.visited, partId :: s.stack, s.issues⟩ pid).1 = false) :
    detectCycle parts s partId =
      (false, { (detectCycle parts ⟨partId :: s.visited, partId :: s.stack, s.issues⟩ pid).2 with
        stack := (detectCycle parts ⟨partId :: s.visited, partId :: s.stack, s.issues⟩ pid).2.stack.erase
          partId }) := by
  rw [detectCycle, dif_neg hstack, dif_neg hvis]
  split
  · rename_i pid2 hpf2
    rw [hpf] at hpf2
    injection hpf2 with he
    subst he
    rw [if_neg (by rw [hr]; exact Bool.false_ne_true)]
  · rename_i hpf2
    rw [hpf] at hpf2
    cases hpf2

theorem detectCycle_step_none {parts : List GamePartE} {s : CycleState} {partId : String}
    (hstack : partId ∉ s.stack) (hvis : partId ∉ s.visited)
    (hpf : parentF parts partId = none) :
    detectCycle parts s partId = (false, ⟨partId :: s.visited, s.stack, s.issues⟩) := by
  rw [detectCycle, dif_neg hstack, dif_neg hvis]
  split
  · rename_i pid2 hpf2
    rw [hpf] at hpf2
    cases hpf2
  · simp only [List.erase_cons_head]

/-- Every call only appends to the issue list. -/
theorem detectCycle_issues_extend (parts : List GamePartE) (s : CycleState) (partId : String) :
    ∃ tail, (detectCycle parts s partId).2.issues = s.issues ++ tail := by
  induction s, partId using detectCycle.induct parts with
  | case1 s partId hstack =>
    exact ⟨[], by rw [detectCycle_stack_hit hstack]; simp⟩
  | case2 s partId hstack hvis =>
    exact ⟨[], by rw [detectCycle_visited_hit hstack hvis]; simp⟩
  | case3 s partId hstack hvis s1 pid hpf r hr ih =>
    obtain ⟨tail, htail⟩ := ih
    refine ⟨tail ++ [⟨.error, partId, cycleMessage partId⟩], ?_⟩
    rw [detectCycle_some_true hstack hvis hpf hr]
    simp only [htail]
    simp
  | case4 s partId hstack hvis s1 pid hpf r hr ih =>
    obtain ⟨tail, htail⟩ := ih
    refine ⟨tail, ?_⟩
    have hrf := hr
    rw [Bool.not_eq_true] at hrf
    rw [detectCycle_some_false hstack hvis hpf hrf]
    simpa using htail
  | case5 s partId hstack hvis hpf =>
    exact ⟨[], by rw [detectCycle_step_none hstack hvis hpf]; simp⟩

theorem good_append {parts : List GamePartE} {issues : List ValidationIssue}
    (tail : List ValidationIssue) (h : GoodIssues parts issues) :
    GoodIssues parts (issues ++ tail) := by
  obtain ⟨issue, hmem, hprop⟩ := h
  exact ⟨issue, List.mem_append_left tail hmem, hprop⟩

/-- Climbing the recursion stack along parent edges reaches its newest
entry. -/
theorem chain_reaches (parts : List GamePartE) :
    ∀ (stack : List String) (q h : String),
      List.Chain' (fun a b => parentF parts b = some a) stack → q ∈ stack →
      stack.head? = some h → Reaches parts q h := by
  intro stack
  induction stack with
  | nil => intro q h _ hq _; cases hq
  | cons x t ih =>
    intro q h hchain hq hhead
    injection hhead with hh
    subst hh
    rcases List.mem_cons.mp hq with rfl | hq2
    · exact Relation.ReflTransGen.refl
    · cases t with
      | nil => cases hq2
      | cons y t2 =>
        have hRxy : parentF parts y = some x := (List.chain'_cons.mp hchain).1
        have hchain2 := (List.chain'_cons.mp hchain).2
        have hreach : Reaches parts q y := ih q y hchain2 hq2 rfl
        exact hreach.tail hRxy

theorem linked_extend {parts : List GamePartE} {partId pid : String} {stack : List String}
    (hl : Linked parts partId stack) (hpf : parentF parts partId = some pid) :
    Linked parts pid (partId :: stack) := by
  constructor
  · rw [List.chain'_cons']
    exact ⟨fun h hh => hl.2 h hh, hl.1⟩
  · intro h hh
    simp only [List.head?_cons, Option.mem_def, Option.some.injEq] at hh
    subst hh
    exact hpf

/-- A stack hit witnesses that the examined id lies on a cycle. -/
theorem linked_mem_onCycle {parts : List GamePartE} {partId : String} {stack : List String}
    (hl : Linked parts partId stack) (hmem : partId ∈ stack) : OnCycle parts partId := by
  cases stack with
  | nil => cases hmem
  | cons h0 t =>
    have hph : parentF parts h0 = some partId := hl.2 h0 rfl
    have hreach : Reaches parts partId h0 :=
      chain_reaches parts (h0 :: t) partId h0 hl.1 hmem rfl
    rcases Relation.ReflTransGen.cases_head hreach with heq | ⟨b, hstep, hrest⟩
    · exact ⟨partId, heq ▸ hph, Relation.ReflTransGen.refl⟩
    · exact ⟨b, hstep, hrest.tail hph⟩

/-- The frame whose child call hit the stack is itself on the cycle. -/
theorem pusher_onCycle {parts : List GamePartE} {partId pid : String} {stack : List String}
    (hl : Linked parts partId stack) (hpf : parentF parts partId = some pid)
    (hmem : pid ∈ partId :: stack) : OnCycle parts partId := by
  rcases List.mem_cons.mp hmem with rfl | hmem2
  · exact ⟨pid, hpf, Relation.ReflTransGen.refl⟩
  · cases stack with
    | nil => cases hmem2
    | cons h0 t =>
      have hph : parentF parts h0 = some partId := hl.2 h0 rfl
      have hreach : Reaches parts pid h0 :=
        chain_reaches parts (h0 :: t) pid h0 hl.1 hmem2 rfl
      exact ⟨pid, hpf, hreach.tail hph⟩

theorem reachesCycle_of_step {parts : List GamePartE} {partId pid : String}
    (hpf : parentF parts partId = some pid) (hrc : ReachesCycle parts partId) :
    ReachesCycle parts pid := by
  obtain ⟨c, hreach, hc⟩ := hrc
  rcases Relation.ReflTransGen.cases_head hreach with heq | ⟨b, hstep, hrest⟩
  · subst heq
    obtain ⟨b, hb, hb2⟩ := hc
    have hb' : parentF parts partId = some b := hb
    rw [hpf] at hb'
    injection hb' with hb'
    subst hb'
    exact ⟨partId, hb2, ⟨pid, hb, hb2⟩⟩
  · have hstep' : parentF parts partId = some b := hstep
    rw [hpf] at hstep'
    injection hstep' with hstep'
    subst hstep'
    exact ⟨c, hrest, hc⟩

theorem reachesCycle_of_reaches {parts : List GamePartE} {a v : String}
    (hav : Reaches parts a v) (hrc : ReachesCycle parts v) : ReachesCycle parts a := by
  obtain ⟨c, hvc, hc⟩ := hrc
  exact ⟨c, hav.trans hvc, hc⟩

/-- Soundness: a `true` return implies the examined id reaches a cycle. -/
theorem detectCycle_true_sound (parts : List GamePartE) (s : CycleState) (partId : String) :
    Linked parts partId s.stack → (detectCycle parts s partId).1 = true →
    ReachesCycle parts partId := by
  induction s, partId using detectCycle.induct parts with
  | case1 s partId hstack =>
    intro hl _
    exact ⟨partId, Relation.ReflTransGen.refl, linked_mem_onCycle hl hstack⟩
  | case2 s partId hstack hvis =>
    intro _ hr
    rw [detectCycle_visited_hit hstack hvis] at hr
    cases hr
  | case3 s partId hstack hvis s1 pid hpf r hr ih =>
    intro hl _
    have hlinked : Linked parts pid (partId :: s.stack) := linked_extend hl hpf
    have hrc := ih hlinked hr
    obtain ⟨c, hreach, hc⟩ := hrc
    exact ⟨c, Relation.ReflTransGen.head hpf hreach, hc⟩
  | case4 s partId hstack hvis s1 pid hpf r hr ih =>
    intro _ htrue
    have hrf := hr
    rw [Bool.not_eq_true] at hrf
    rw [detectCycle_some_false hstack hvis hpf hrf] at htrue
    cases htrue
  | case5 s partId hstack hvis hpf =>
    intro _ htrue
    rw [detectCycle_step_none hstack hvis hpf] at htrue
    cases htrue

/-- A walk from an id that reaches no cycle returns `false`, restores the
stack, pushes no issue, and visits only ids reachable from it. -/
theorem detectCycle_no_cycle (parts : List GamePartE) (s : CycleState) (partId : String) :
    Linked parts partId s.stack → ¬ ReachesCycle parts partId →
    (detectCycle parts s partId).1 = false ∧
    (detectCycle parts s partId).2.stack = s.stack ∧
    (detectCycle parts s partId).2.issues = s.issues ∧
    (∀ v ∈ (detectCycle parts s partId).2.visited, v ∈ s.visited ∨ Reaches parts partId v) := by
  induction s, partId using detectCycle.induct parts with
  | case1 s partId hstack =>
    intro hl hnrc
    exact absurd ⟨partId, Relation.ReflTransGen.refl, linked_mem_onCycle hl hstack⟩ hnrc
  | case2 s partId hstack hvis =>
    intro _ _
    rw [detectCycle_visited_hit hstack hvis]
    exact ⟨rfl, rfl, rfl, fun v hv => Or.inl hv⟩
  | case3 s partId hstack hvis s1 pid hpf r hr ih =>
    intro hl hnrc
    have hlinked : Linked parts pid (partId :: s.stack) := linked_extend hl hpf
    have hrc : ReachesCycle parts partId := by
      obtain ⟨c, hreach, hc⟩ := detectCycle_true_sound parts _ pid hlinked hr
      exact ⟨c, Relation.ReflTransGen.head hpf hreach, hc⟩
    exact absurd hrc hnrc
  | case4 s partId hstack hvis s1 pid hpf r hr ih =>
    intro hl hnrc
    have hlinked : Linked parts pid (partId :: s.stack) := linked_extend hl hpf
    have hnrc2 : ¬ ReachesCycle parts pid := by
      intro hrc
      obtain ⟨c, hreach, hc⟩ := hrc
      exact hnrc ⟨c, Relation.ReflTransGen.head hpf hreach, hc⟩
    obtain ⟨hfalse, hstk, hiss, hvisit⟩ := ih hlinked hnrc2
    have hrf := hr
    rw [Bool.not_eq_true] at hrf
    rw [detectCycle_some_false hstack hvis hpf hrf]
    refine ⟨rfl, ?_, hiss, ?_⟩
    · simp only [hstk, List.erase_cons_head]
    · intro v hv
      rcases hvisit v hv with hv1 | hv2
      · rcases List.mem_cons.mp hv1 with rfl | hv3
        · exact Or.inr Relation.ReflTransGen.refl
        · exact Or.inl hv3
      · exact Or.inr (Relation.ReflTransGen.head hpf hv2)
  | case5 s partId hstack hvis hpf =>
    intro _ _
    rw [detectCycle_step_none hstack hvis hpf]
    refine ⟨rfl, rfl, rfl, ?_⟩
    intro v hv
    rcases List.mem_cons.mp hv with rfl | hv2
    · exact Or.inr Relation.ReflTransGen.refl
    · exact Or.inl hv2

/-- Completeness: a walk from an id that reaches a cycle either hits the
stack immediately or records an error issue naming an id on a cycle. -/
theorem detectCycle_finds (parts : List GamePartE) (s : CycleState) (partId : String) :
    Linked parts partId s.stack →
    (∀ v ∈ s.visited, v ∉ s.stack → ¬ ReachesCycle parts v) →
    ReachesCycle parts partId →
    (detectCycle parts s partId).1 = true ∧
    (partId ∈ s.stack ∨ GoodIssues parts (detectCycle parts s partId).2.issues) := by
  induction s, partId using detectCycle.induct parts with
  | case1 s partId hstack =>
    intro _ _ _
    rw [detectCycle_stack_hit hstack]
    exact ⟨rfl, Or.inl hstack⟩
  | case2 s partId hstack hvis =>
    intro _ hclean hrc
    exact absurd hrc (hclean partId hvis hstack)
  | case3 s partId hstack hvis s1 pid hpf r hr ih =>
    intro hl hclean hrc
    have hlinked : Linked parts pid (partId :: s.stack) := linked_extend hl hpf
    have hclean2 : ∀ v ∈ partId :: s.visited, v ∉ partId :: s.stack →
        ¬ ReachesCycle parts v := by
      intro v hv hvs
      rcases List.mem_cons.mp hv with rfl | hv2
      · exact absurd (List.mem_cons_self v s.stack) hvs
      · exact hclean v hv2 (fun hc => hvs (List.mem_cons_of_mem partId hc))
    obtain ⟨_, hdisj⟩ := ih hlinked hclean2 (reachesCycle_of_step hpf hrc)
    rw [detectCycle_some_true hstack hvis hpf hr]
    refine ⟨rfl, Or.inr ?_⟩
    rcases hdisj with hmem | hgood
    · refine ⟨⟨.error, partId, cycleMessage partId⟩, ?_, rfl, ?_⟩
      · simp
      · exact pusher_onCycle hl hpf hmem
    · exact good_append _ hgood
  | case4 s partId hstack hvis s1 pid hpf r hr ih =>
    intro hl hclean hrc
    have hlinked : Linked parts pid (partId :: s.stack) := linked_extend hl hpf
    have hclean2 : ∀ v ∈ partId :: s.visited, v ∉ partId :: s.stack →
        ¬ ReachesCycle parts v := by
      intro v hv hvs
      rcases List.mem_cons.mp hv with rfl | hv2
      · exact absurd (List.mem_cons_self v s.stack) hvs
      · exact hclean v hv2 (fun hc => hvs (List.mem_cons_of_mem partId hc))
    obtain ⟨htrue, _⟩ := ih hlinked hclean2 (reachesCycle_of_step hpf hrc)
    exact absurd htrue hr
  | case5 s partId hstack hvis hpf =>
    intro _ _ hrc
    obtain ⟨c, hreach, hc⟩ := hrc
    rcases Relation.ReflTransGen.cases_head hreach with heq | ⟨b, hstep, _⟩
    · subst heq
      obtain ⟨b, hb, _⟩ := hc
      have hb' : parentF parts partId = some b := hb
      rw [hpf] at hb'
      cases hb'
    · have hstep' : parentF parts partId = some b := hstep
      rw [hpf] at hstep'
      cases hstep'

/-- A trivially linked empty stack. -/
theorem linked_nil (parts : List GamePartE) (partId : String) : Linked parts partId [] :=
  ⟨List.chain'_nil, fun _ hh => nomatch hh⟩

/-- One `forEach` step preserves the validator loop invariant: either an
on-cycle error issue has been recorded, or the stack is empty and no
visited id reaches a cycle. -/
theorem detectCycle_step_invariant (parts : List GamePartE) (s : CycleState) (pId : String)
    (hInv : GoodIssues parts s.issues ∨
      (s.stack = [] ∧ ∀ v ∈ s.visited, ¬ ReachesCycle parts v)) :
    GoodIssues parts (detectCycle parts s pId).2.issues ∨
    ((detectCycle parts s pId).2.stack = [] ∧
      ∀ v ∈ (detectCycle parts s pId).2.visited, ¬ ReachesCycle parts v) := by
  rcases hInv with hgood | ⟨hstack, hvis⟩
  · left
    obtain ⟨tail, htail⟩ := detectCycle_issues_extend parts s pId
    rw [htail]
    exact good_append tail hgood
  · have hlinked : Linked parts pId s.stack := hstack ▸ linked_nil parts pId
    by_cases hrc : ReachesCycle parts pId
    · left
      have h := detectCycle_finds parts s pId hlinked (fun v hv _ => hvis v hv) hrc
      rcases h.2 with hmem | hgood2
      · rw [hstack] at hmem
        cases hmem
      · exact hgood2
    · right
      have h := detectCycle_no_cycle parts s pId hlinked hrc
      refine ⟨by rw [h.2.1, hstack], ?_⟩
      intro v hv
      rcases h.2.2.2 v hv with hvv | hvr
      · exact hvis v hvv
      · exact fun hrcv => hrc (reachesCycle_of_reaches hvr hrcv)

theorem foldCycle_issues_extend (parts : List GamePartE) :
    ∀ (ps : List GamePartE) (s : CycleState),
      ∃ tail, (ps.foldl (fun s p => (detectCycle parts s p.id).2) s).issues =
        s.issues ++ tail := by
  intro ps
  induction ps with
  | nil => intro s; exact ⟨[], by simp⟩
  | cons p ps ih =>
    intro s
    obtain ⟨tail1, h1⟩ := detectCycle_issues_extend parts s p.id
    obtain ⟨tail2, h2⟩ := ih ((detectCycle parts s p.id).2)
    exact ⟨tail1 ++ tail2, by simp only [List.foldl_cons, h2, h1, List.append_assoc]⟩

theorem foldCycle_invariant (parts : List GamePartE) :
    ∀ (ps : List GamePartE) (s : CycleState),
      (GoodIssues parts s.issues ∨ (s.stack = [] ∧ ∀ v ∈ s.visited, ¬ ReachesCycle parts v)) →
      (GoodIssues parts (ps.foldl (fun s p => (detectCycle parts s p.id).2) s).issues ∨
        ((ps.foldl (fun s p => (detectCycle parts s p.id).2) s).stack = [] ∧
          ∀ v ∈ (ps.foldl (fun s p => (detectCycle parts s p.id).2) s).visited,
            ¬ ReachesCycle parts v)) := by
  intro ps
  induction ps with
  | nil => intro s h; exact h
  | cons p ps ih =>
    intro s h
    simp only [List.foldl_cons]
    exact ih _ (detectCycle_step_invariant parts s p.id h)

theorem foldCycle_finds (parts : List GamePartE) :
    ∀ (ps : List GamePartE) (s : CycleState),
      (GoodIssues parts s.issues ∨ (s.stack = [] ∧ ∀ v ∈ s.visited, ¬ ReachesCycle parts v)) →
      ∀ p ∈ ps, OnCycle parts p.id →
      GoodIssues parts (ps.foldl (fun s p => (detectCycle parts s p.id).2) s).issues := by
  intro ps
  induction ps with
  | nil => intro s _ p hp; cases hp
  | cons p0 ps ih =>
    intro s hInv p hp hcyc
    simp only [List.foldl_cons]
    rcases List.mem_cons.mp hp with rfl | hp2
    · rcases hInv with hgood | ⟨hstack, hvis⟩
      · obtain ⟨tail1, h1⟩ := detectCycle_issues_extend parts s p.id
        obtain ⟨tail2, h2⟩ := foldCycle_issues_extend parts ps ((detectCycle parts s p.id).2)
        rw [h2, h1]
        exact good_append _ (good_append _ hgood)
      · have hlinked : Linked parts p.id s.stack := hstack ▸ linked_nil parts p.id
        have h := detectCycle_finds parts s p.id hlinked (fun v hv _ => hvis v hv)
          ⟨p.id, Relation.ReflTransGen.refl, hcyc⟩
        rcases h.2 with hmem | hgood2
        · rw [hstack] at hmem
          cases hmem
        · obtain ⟨tail2, h2⟩ := foldCycle_issues_extend parts ps ((detectCycle parts s p.id).2)
          rw [h2]
          exact good_append _ hgood2
    · exact ih _ (detectCycle_step_invariant parts s p0.id hInv) p hp2 hcyc

/-- C5.  The hierarchy validator's cycle check: a part list whose
`parentId` edges contain a cycle produces at least one error-severity issue
whose `partId` lies on a cycle, and an acyclic part list produces no
cycle-related issues at all. -/
theorem cycleValidator_correct (parts : List GamePartE) :
    (HasCycle parts →
      ∃ issue ∈ runCycleCheck parts, issue.type = .error ∧ OnCycle parts issue.partId) ∧
    (¬ HasCycle parts → runCycleCheck parts = []) := by
  constructor
  · rintro ⟨a, hcyc⟩
    obtain ⟨b, hstep, _⟩ := hcyc
    have hmem : a ∈ parts.map (·.id) := parentF_some_mem hstep
    obtain ⟨p, hp, hpid⟩ := List.mem_map.mp hmem
    have hgood : GoodIssues parts (runCycleCheck parts) := by
      unfold runCycleCheck
      refine foldCycle_finds parts parts ⟨[], [], []⟩ (Or.inr ⟨rfl, by simp⟩) p hp ?_
      rw [hpid]
      exact ⟨b, hstep, ‹Reaches parts b a›⟩
    exact hgood
  · intro hnc
    have hnrc : ∀ v, ¬ ReachesCycle parts v := fun v ⟨c, _, hc⟩ => hnc ⟨c, hc⟩
    unfold runCycleCheck
    suffices H : ∀ (ps : List GamePartE) (s : CycleState), s.stack = [] → s.issues = [] →
        (ps.foldl (fun s p => (detectCycle parts s p.id).2) s).issues = [] from
      H parts ⟨[], [], []⟩ rfl rfl
    intro ps
    induction ps with
    | nil => intro s _ hi; exact hi
    | cons p ps ih =>
      intro s hstack hissues
      have hlinked : Linked parts p.id s.stack := hstack ▸ linked_nil parts p.id
      have h := detectCycle_no_cycle parts s p.id hlinked (hnrc p.id)
      simp only [List.foldl_cons]
      exact ih _ (by rw [h.2.1, hstack]) (by rw [h.2.2.1, hissues])

/-- Demo part `a`, child of `b`. -/
def demoPartA : GamePartE :=
  { id := "a", name := "A", parentId := some "b"
    shape := .circle (1/2) (1/2) (1/4), bbox := ⟨0, 0, 1, 1⟩
    pivot := (1/2, 1/2), movementType := .rotation, type_hint := .wheel, confidence := 1 }

/-- Demo part `b`, child of `a` — together with `demoPartA` a 2-cycle. -/
def demoPartB : GamePartE :=
  { id := "b", name := "B", parentId := some "a"
    shape := .rect 0 0 1 1 none, bbox := ⟨0, 0, 1, 1⟩
    pivot := (1/2, 1/2), movementType := .fixed, type_hint := .body, confidence := 1 }

/-- Demo root part with no parent. -/
def demoRootPart : GamePartE :=
  { id := "r", name := "Root", parentId := none
    shape := .rect 0 0 1 1 none, bbox := ⟨0, 0, 1, 1⟩
    pivot := (1/2, 1/2), movementType := .fixed, type_hint := .body, confidence := 1 }

def demoCycleParts : List GamePartE := [demoPartA, demoPartB]

def demoLineParts : List GamePartE := [demoRootPart]

theorem demoCycle_parentA : parentF demoCycleParts "a" = some "b" := by
  simp [parentF, partsById, parentRef, demoCycleParts, demoPartA, demoPartB]

theorem demoCycle_parentB : parentF demoCycleParts "b" = some "a" := by
  simp [parentF, partsById, parentRef, demoCycleParts, demoPartA, demoPartB]

theorem demoLine_acyclic : ¬ HasCycle demoLineParts := by
  rintro ⟨a, b, hstep, _⟩
  have hstep' : parentF demoLineParts a = some b := hstep
  have hnone : parentF demoLineParts a = none := by
    show (partsById demoLineParts a).bind parentRef = none
    have hlook : partsById demoLineParts a =
        if ("r" : String) = a then some demoRootPart else none := by
      simp [demoLineParts, partsById, demoRootPart]
    rw [hlook]
    by_cases ha : ("r" : String) = a
    · rw [if_pos ha]
      simp [parentRef, demoRootPart]
    · rw [if_neg ha]
      rfl
  rw [hnone] at hstep'
  cases hstep'

/-- C5 witness: the theorem applied to a concrete 2-cycle and to a concrete
acyclic list. -/
theorem cycleValidator_correct_witness :
    (∃ issue ∈ runCycleCheck demoCycleParts,
      issue.type = .error ∧ OnCycle demoCycleParts issue.partId) ∧
    runCycleCheck demoLineParts = [] :=
  ⟨(cycleValidator_correct demoCycleParts).1
      ⟨"a", "b", demoCycle_parentA, Relation.ReflTransGen.single demoCycle_parentB⟩,
   (cycleValidator_correct demoLineParts).2 demoLine_acyclic⟩

/-! ## Atlas packing

`BOX_PADDING = 16`; the packers place integer pixel rects obtained with
`Math.round`.  The grid algorithm is exact rational arithmetic; the row and
maxrects algorithms estimate a uniform scale with a square root and
therefore live in ℝ. -/

def BOX_PADDING : ℚ := 16

/-- Function `Math.round` (for every JS number, `Math.round x = ⌊x + 1/2⌋`). -/
def jsRound (q : ℚ) : ℤ := ⌊q + 1/2⌋

/-- Function `Math.round` on the idealized reals used by the row/maxrects scale. -/
noncomputable def jsRoundR (x : ℝ) : ℤ := ⌊x + 1/2⌋

/-- Two pixel rects intersect when their interiors share a point; a rect
with non-positive extent intersects nothing. -/
def rectsIntersect (r1 r2 : AtlasRect) : Prop :=
  max r1.x r2.x < min (r1.x + r1.w) (r2.x + r2.w) ∧
  max r1.y r2.y < min (r1.y + r1.h) (r2.y + r2.h)

theorem rectsIntersect_symm {r1 r2 : AtlasRect} (h : rectsIntersect r1 r2) :
    rectsIntersect r2 r1 := by
  obtain ⟨hx, hy⟩ := h
  exact ⟨by rw [max_comm, min_comm]; exact hx, by rw [max_comm, min_comm]; exact hy⟩

/-- Value `Math.ceil(Math.sqrt n)` for a natural `n`. -/
def ceilSqrt (n : ℕ) : ℕ :=
  if Nat.sqrt n * Nat.sqrt n = n then Nat.sqrt n else Nat.sqrt n + 1

/-- Column count `cols = Math.ceil(Math.sqrt(n))`. -/
def gridCols (n : ℕ) : ℕ := ceilSqrt n

/-- Row count `rows = Math.ceil(n / cols)`. -/
def gridRows (n : ℕ) : ℕ := (n + gridCols n - 1) / gridCols n

/-- Cell width `cellW = (resolution - BOX_PADDING * (cols + 1)) / cols`. -/
def gridCellW (n : ℕ) (res : ℚ) : ℚ :=
  (res - BOX_PADDING * (gridCols n + 1)) / (gridCols n)

/-- Cell height `cellH = (resolution - BOX_PADDING * (rows + 1)) / rows`. -/
def gridCellH (n : ℕ) (res : ℚ) : ℚ :=
  (res - BOX_PADDING * (gridRows n + 1)) / (gridRows n)

/-- Cell origin `x = BOX_PADDING + col * (cellW + BOX_PADDING)` with `col = i % cols`. -/
def gridX (n : ℕ) (res : ℚ) (i : ℕ) : ℚ :=
  BOX_PADDING + (i % gridCols n : ℕ) * (gridCellW n res + BOX_PADDING)

/-- Cell origin `y = BOX_PADDING + row * (cellH + BOX_PADDING)` with
`row = Math.floor(i / cols)`. -/
def gridY (n : ℕ) (res : ℚ) (i : ℕ) : ℚ :=
  BOX_PADDING + (i / gridCols n : ℕ) * (gridCellH n res + BOX_PADDING)

/-- The letterboxed destination size: fit the part into its cell while
preserving its own aspect ratio. -/
def gridDest (n : ℕ) (res : ℚ) (srcW srcH : ℚ) : ℚ × ℚ :=
  let aspectRatio := srcW / srcH
  if aspectRatio > gridCellW n res / gridCellH n res then
    (gridCellW n res, gridCellW n res / aspectRatio)
  else
    (gridCellH n res * aspectRatio, gridCellH n res)

/-- The atlas rect the grid algorithm assigns to the part at position `i`
of an `n`-part list (centering offsets applied, then `Math.round`). -/
def packGridRect (n : ℕ) (res : ℚ) (i : ℕ) (srcW srcH : ℚ) : AtlasRect :=
  ⟨jsRound (gridX n res i + (gridCellW n res - (gridDest n res srcW srcH).1) / 2),
   jsRound (gridY n res i + (gridCellH n res - (gridDest n res srcW srcH).2) / 2),
   jsRound (gridDest n res srcW srcH).1,
   jsRound (gridDest n res srcW srcH).2⟩

/-- Setting `p.part.atlasRect = rect`: record a placement on a part. -/
def placeRect (p : PartWithSize) (r : AtlasRect) : PartWithSize :=
  { p with part := { p.part with atlasRect := some r } }

/-- Function `packGrid`: assign every part its grid placement. -/
def packGrid (partsWithSize : List PartWithSize) (res : ℚ) : List PartWithSize :=
  partsWithSize.mapIdx (fun i p =>
    placeRect p (packGridRect partsWithSize.length res i p.srcW p.srcH))

theorem gridCols_pos {n : ℕ} (hn : 0 < n) : 0 < gridCols n := by
  unfold gridCols ceilSqrt
  split
  · rename_i h
    rcases Nat.eq_zero_or_pos (Nat.sqrt n) with h0 | h0
    · rw [h0] at h
      omega
    · exact h0
  · omega

theorem le_sq_gridCols (n : ℕ) : n ≤ gridCols n * gridCols n := by
  unfold gridCols ceilSqrt
  split
  · rename_i h
    omega
  · exact (Nat.lt_succ_sqrt n).le

theorem gridRows_pos {n : ℕ} (hn : 0 < n) : 0 < gridRows n := by
  unfold gridRows
  have hc := gridCols_pos hn
  exact (Nat.one_le_div_iff hc).mpr (by omega)

theorem gridRows_le_gridCols {n : ℕ} (hn : 0 < n) : gridRows n ≤ gridCols n := by
  unfold gridRows
  have hc := gridCols_pos hn
  have hsq := le_sq_gridCols n
  rw [Nat.div_le_iff_le_mul_add_pred hc]
  omega

theorem gridCellW_add_pad {n : ℕ} (hn : 0 < n) (res : ℚ) :
    gridCellW n res + BOX_PADDING = (res - BOX_PADDING) / gridCols n := by
  have hc : (0:ℚ) < gridCols n := by exact_mod_cast gridCols_pos hn
  unfold gridCellW BOX_PADDING
  field_simp
  ring

theorem gridCellH_add_pad {n : ℕ} (hn : 0 < n) (res : ℚ) :
    gridCellH n res + BOX_PADDING = (res - BOX_PADDING) / gridRows n := by
  have hr : (0:ℚ) < gridRows n := by exact_mod_cast gridRows_pos hn
  unfold gridCellH BOX_PADDING
  field_simp
  ring

theorem gridCellW_pad_pos {n : ℕ} (hn : 0 < n) {res : ℚ} (hres : BOX_PADDING < res) :
    0 < gridCellW n res + BOX_PADDING := by
  rw [gridCellW_add_pad hn res]
  have hc : (0:ℚ) < gridCols n := by exact_mod_cast gridCols_pos hn
  exact div_pos (by linarith) hc

theorem gridCellH_pad_pos {n : ℕ} (hn : 0 < n) {res : ℚ} (hres : BOX_PADDING < res) :
    0 < gridCellH n res + BOX_PADDING := by
  rw [gridCellH_add_pad hn res]
  have hr : (0:ℚ) < gridRows n := by exact_mod_cast gridRows_pos hn
  exact div_pos (by linarith) hr

/-- The cells are at least as tall as they are wide (`rows ≤ cols`). -/
theorem gridCellW_le_gridCellH {n : ℕ} (hn : 0 < n) {res : ℚ} (hres : BOX_PADDING < res) :
    gridCellW n res ≤ gridCellH n res := by
  have h1 : gridCellW n res + BOX_PADDING ≤ gridCellH n res + BOX_PADDING := by
    rw [gridCellW_add_pad hn res, gridCellH_add_pad hn res]
    have hr : (0:ℚ) < gridRows n := by exact_mod_cast gridRows_pos hn
    have hrc : (gridRows n : ℚ) ≤ gridCols n := by exact_mod_cast gridRows_le_gridCols hn
    have hnum : (0:ℚ) ≤ res - BOX_PADDING := by linarith
    gcongr
  linarith

/-- A positive destination width never exceeds the cell width. -/
theorem gridDest_1_le {n : ℕ} {res srcW srcH : ℚ} (hw : 0 < srcW) (hh : 0 < srcH)
    (hd : 0 < (gridDest n res srcW srcH).1) :
    (gridDest n res srcW srcH).1 ≤ gridCellW n res := by
  have har : 0 < srcW / srcH := div_pos hw hh
  unfold gridDest at hd ⊢
  by_cases hbr : srcW / srcH > gridCellW n res / gridCellH n res
  · simp only [if_pos hbr] at hd ⊢
    exact le_refl _
  · simp only [if_neg hbr] at hd ⊢
    push_neg at hbr
    have hch : 0 < gridCellH n res := by
      by_contra hch
      push_neg at hch
      have : gridCellH n res * (srcW / srcH) ≤ 0 :=
        mul_nonpos_of_nonpos_of_nonneg hch (le_of_lt har)
      linarith
    calc gridCellH n res * (srcW / srcH)
        ≤ gridCellH n res * (gridCellW n res / gridCellH n res) := by
          exact mul_le_mul_of_nonneg_left hbr (le_of_lt hch)
    _ = gridCellW n res := by field_simp

/-- A positive destination height never exceeds the cell height (using
`cellW ≤ cellH`). -/
theorem gridDest_2_le {n : ℕ} {res srcW srcH : ℚ} (hn : 0 < n) (hres : BOX_PADDING < res)
    (hw : 0 < srcW) (hh : 0 < srcH) (hd : 0 < (gridDest n res srcW srcH).2) :
    (gridDest n res srcW srcH).2 ≤ gridCellH n res := by
  have har : 0 < srcW / srcH := div_pos hw hh
  have hcc := gridCellW_le_gridCellH hn hres
  unfold gridDest at hd ⊢
  by_cases hbr : srcW / srcH > gridCellW n res / gridCellH n res
  · simp only [if_pos hbr] at hd ⊢
    have hcw : 0 < gridCellW n res := by
      by_contra hcw
      push_neg at hcw
      have : gridCellW n res / (srcW / srcH) ≤ 0 :=
        div_nonpos_of_nonpos_of_nonneg hcw (le_of_lt har)
      linarith
    have hch : 0 < gridCellH n res := lt_of_lt_of_le hcw hcc
    rw [div_le_iff har]
    rw [gt_iff_lt, div_lt_iff hch] at hbr
    linarith [mul_comm (gridCellH n res) (srcW / srcH)]
  · simp only [if_neg hbr] at hd ⊢
    exact le_refl _

/-- One-dimensional separation: two rounded letterboxed intervals from
cells a full padding apart cannot meet. -/
theorem interval_separated {x1 x2 cell d1 d2 : ℚ} {z1 z2 w1 : ℤ}
    (hcell1 : d1 ≤ cell) (hcell2 : d2 ≤ cell)
    (hb1 : (z1 : ℚ) ≤ x1 + (cell - d1) / 2 + 1/2)
    (hbw : (w1 : ℚ) ≤ d1 + 1/2)
    (hb3 : x2 + (cell - d2) / 2 - 1/2 < (z2 : ℚ))
    (hsep : x1 + cell + 16 ≤ x2)
    (hcross : (z2 : ℚ) < (z1 : ℚ) + (w1 : ℚ)) : False := by
  linarith

theorem jsRound_le (q : ℚ) : ((jsRound q : ℤ) : ℚ) ≤ q + 1/2 := by
  unfold jsRound
  exact Int.floor_le (q + 1/2)

theorem jsRound_gt (q : ℚ) : q - 1/2 < ((jsRound q : ℤ) : ℚ) := by
  unfold jsRound
  have := Int.sub_one_lt_floor (q + 1/2)
  linarith

theorem jsRound_pos_imp {q : ℚ} (h : 1 ≤ jsRound q) : 1/2 ≤ q := by
  unfold jsRound at h
  have := Int.le_floor.mp h
  push_cast at this
  linarith

/-- If two grid placements intersect, both have positive rounded extent in
both axes, hence positive real destination sizes. -/
theorem rectsIntersect_pos_w {r1 r2 : AtlasRect} (h : rectsIntersect r1 r2) :
    1 ≤ r1.w ∧ 1 ≤ r2.w ∧ 1 ≤ r1.h ∧ 1 ≤ r2.h ∧
    r2.x < r1.x + r1.w ∧ r1.x < r2.x + r2.w ∧
    r2.y < r1.y + r1.h ∧ r1.y < r2.y + r2.h := by
  obtain ⟨hx, hy⟩ := h
  have h1 := le_max_left r1.x r2.x
  have h2 := le_max_right r1.x r2.x
  have h3 := min_le_left (r1.x + r1.w) (r2.x + r2.w)
  have h4 := min_le_right (r1.x + r1.w) (r2.x + r2.w)
  have h5 := le_max_left r1.y r2.y
  have h6 := le_max_right r1.y r2.y
  have h7 := min_le_left (r1.y + r1.h) (r2.y + r2.h)
  have h8 := min_le_right (r1.y + r1.h) (r2.y + r2.h)
  omega

/-- Horizontal separation: placements in distinct grid columns do not
intersect. -/
theorem packGridRect_col_separated {n : ℕ} {res : ℚ} {i j : ℕ} {wi hgt_i wj hgt_j : ℚ}
    (hn : 0 < n) (hres : BOX_PADDING < res)
    (hwi : 0 < wi) (hhi : 0 < hgt_i) (hwj : 0 < wj) (hhj : 0 < hgt_j)
    (hcol : i % gridCols n < j % gridCols n) :
    ¬ rectsIntersect (packGridRect n res i wi hgt_i) (packGridRect n res j wj hgt_j) := by
  intro hint
  obtain ⟨hw1, hw2, _, _, hcross, _, _, _⟩ := rectsIntersect_pos_w hint
  simp only [packGridRect] at hw1 hw2 hcross
  have hd1 : 1/2 ≤ (gridDest n res wi hgt_i).1 := jsRound_pos_imp hw1
  have hd2 : 1/2 ≤ (gridDest n res wj hgt_j).1 := jsRound_pos_imp hw2
  have hle1 : (gridDest n res wi hgt_i).1 ≤ gridCellW n res :=
    gridDest_1_le hwi hhi (by linarith)
  have hle2 : (gridDest n res wj hgt_j).1 ≤ gridCellW n res :=
    gridDest_1_le hwj hhj (by linarith)
  have hp := gridCellW_pad_pos hn hres
  have hcast : ((i % gridCols n : ℕ) : ℚ) + 1 ≤ ((j % gridCols n : ℕ) : ℚ) := by
    exact_mod_cast hcol
  have hsep : gridX n res i + gridCellW n res + 16 ≤ gridX n res j := by
    unfold gridX
    have key := mul_le_mul_of_nonneg_right hcast (le_of_lt hp)
    unfold BOX_PADDING at key ⊢
    ring_nf at key ⊢
    linarith
  have hcross' : ((jsRound (gridX n res j +
        (gridCellW n res - (gridDest n res wj hgt_j).1) / 2) : ℤ) : ℚ) <
      ((jsRound (gridX n res i + (gridCellW n res - (gridDest n res wi hgt_i).1) / 2) : ℤ) : ℚ)
        + ((jsRound (gridDest n res wi hgt_i).1 : ℤ) : ℚ) := by
    exact_mod_cast hcross
  exact interval_separated hle1 hle2
    (jsRound_le (gridX n res i + (gridCellW n res - (gridDest n res wi hgt_i).1) / 2))
    (jsRound_le (gridDest n res wi hgt_i).1)
    (by
      have := jsRound_gt (gridX n res j + (gridCellW n res - (gridDest n res wj hgt_j).1) / 2)
      linarith)
    hsep hcross'

/-- Vertical separation: placements in distinct grid rows do not
intersect. -/
theorem packGridRect_row_separated {n : ℕ} {res : ℚ} {i j : ℕ} {wi hgt_i wj hgt_j : ℚ}
    (hn : 0 < n) (hres : BOX_PADDING < res)
    (hwi : 0 < wi) (hhi : 0 < hgt_i) (hwj : 0 < wj) (hhj : 0 < hgt_j)
    (hrow : i / gridCols n < j / gridCols n) :
    ¬ rectsIntersect (packGridRect n res i wi hgt_i) (packGridRect n res j wj hgt_j) := by
  intro hint
  obtain ⟨_, _, hh1, hh2, _, _, hcross, _⟩ := rectsIntersect_pos_w hint
  simp only [packGridRect] at hh1 hh2 hcross
  have hd1 : 1/2 ≤ (gridDest n res wi hgt_i).2 := jsRound_pos_imp hh1
  have hd2 : 1/2 ≤ (gridDest n res wj hgt_j).2 := jsRound_pos_imp hh2
  have hle1 : (gridDest n res wi hgt_i).2 ≤ gridCellH n res :=
    gridDest_2_le hn hres hwi hhi (by linarith)
  have hle2 : (gridDest n res wj hgt_j).2 ≤ gridCellH n res :=
    gridDest_2_le hn hres hwj hhj (by linarith)
  have hp := gridCellH_pad_pos hn hres
  have hcast : ((i / gridCols n : ℕ) : ℚ) + 1 ≤ ((j / gridCols n : ℕ) : ℚ) := by
    exact_mod_cast hrow
  have hsep : gridY n res i + gridCellH n res + 16 ≤ gridY n res j := by
    unfold gridY
    have key := mul_le_mul_of_nonneg_right hcast (le_of_lt hp)
    unfold BOX_PADDING at key ⊢
    ring_nf at key ⊢
    linarith
  have hcross' : ((jsRound (gridY n res j +
        (gridCellH n res - (gridDest n res wj hgt_j).2) / 2) : ℤ) : ℚ) <
      ((jsRound (gridY n res i + (gridCellH n res - (gridDest n res wi hgt_i).2) / 2) : ℤ) : ℚ)
        + ((jsRound (gridDest n res wi hgt_i).2 : ℤ) : ℚ) := by
    exact_mod_cast hcross
  exact interval_separated hle1 hle2
    (jsRound_le (gridY n res i + (gridCellH n res - (gridDest n res wi hgt_i).2) / 2))
    (jsRound_le (gridDest n res wi hgt_i).2)
    (by
      have := jsRound_gt (gridY n res j + (gridCellH n res - (gridDest n res wj hgt_j).2) / 2)
      linarith)
    hsep hcross'

theorem div_lt_div_of_mod_eq {i j c : ℕ} (hc : 0 < c) (hij : i < j)
    (hmod : i % c = j % c) : i / c < j / c := by
  have hi := Nat.div_add_mod i c
  have hj := Nat.div_add_mod j c
  by_contra h
  push_neg at h
  have hle : c * (j / c) ≤ c * (i / c) := Nat.mul_le_mul_left c h
  omega

/-- Core index lemma: two distinct positions of an `n`-part grid layout
get non-intersecting rects. -/
theorem packGridRect_disjoint {n : ℕ} {res : ℚ} {i j : ℕ} {wi hgt_i wj hgt_j : ℚ}
    (hres : res = 1024 ∨ res = 2048) (hj : j < n) (hij : i < j)
    (hwi : 0 < wi) (hhi : 0 < hgt_i) (hwj : 0 < wj) (hhj : 0 < hgt_j) :
    ¬ rectsIntersect (packGridRect n res i wi hgt_i) (packGridRect n res j wj hgt_j) := by
  have hn : 0 < n := lt_of_le_of_lt (Nat.zero_le j) hj
  have hres' : BOX_PADDING < res := by
    rcases hres with rfl | rfl <;> norm_num [BOX_PADDING]
  rcases lt_trichotomy (i % gridCols n) (j % gridCols n) with hc | hc | hc
  · exact packGridRect_col_separated hn hres' hwi hhi hwj hhj hc
  · have hrow : i / gridCols n < j / gridCols n :=
      div_lt_div_of_mod_eq (gridCols_pos hn) hij hc
    exact packGridRect_row_separated hn hres' hwi hhi hwj hhj hrow
  · intro hint
    exact packGridRect_col_separated hn hres' hwj hhj hwi hhi hc
      (rectsIntersect_symm hint)

/-- C1 (amended).  For every part list with positive dimensions and either
supported canvas size, the grid algorithm's placements are pairwise
non-intersecting.  (Positive integer dimensions are a special case of the
positivity hypotheses.) -/
theorem packGrid_no_overlap (pws : List PartWithSize) (res : ℚ)
    (hres : res = 1024 ∨ res = 2048)
    (hpos : ∀ p ∈ pws, 0 < p.srcW ∧ 0 < p.srcH) :
    (packGrid pws res).Pairwise (fun p q =>
      ∀ r1 ∈ p.part.atlasRect, ∀ r2 ∈ q.part.atlasRect, ¬ rectsIntersect r1 r2) := by
  rw [List.pairwise_iff_getElem]
  intro i j hi hj hij
  have hi2 : i < pws.length := by simpa [packGrid] using hi
  have hj2 : j < pws.length := by simpa [packGrid] using hj
  simp only [packGrid, List.getElem_mapIdx, placeRect]
  intro r1 hr1 r2 hr2
  simp only [Option.mem_def, Option.some.injEq] at hr1 hr2
  subst hr1
  subst hr2
  have h1 := hpos pws[i] (List.getElem_mem hi2)
  have h2 := hpos pws[j] (List.getElem_mem hj2)
  exact packGridRect_disjoint hres hj2 hij h1.1 h1.2 h2.1 h2.2

def demoSizedParts : List PartWithSize :=
  [⟨degeneratePart, 0, 20, 10⟩, ⟨degeneratePart, 1, 10, 20⟩, ⟨degeneratePart, 2, 15, 15⟩]

/-- C1 amended-theorem witness: three concrete parts on the 1024 canvas. -/
theorem packGrid_no_overlap_witness :
    (packGrid demoSizedParts 1024).Pairwise (fun p q =>
      ∀ r1 ∈ p.part.atlasRect, ∀ r2 ∈ q.part.atlasRect, ¬ rectsIntersect r1 r2) :=
  packGrid_no_overlap demoSizedParts 1024 (Or.inl rfl)
    (by
      intro p hp
      simp only [demoSizedParts, List.mem_cons, List.not_mem_nil, or_false] at hp
      rcases hp with rfl | rfl | rfl <;> exact ⟨by norm_num, by norm_num⟩)

/-! ### Row packing (over ℝ, because of the square-root scale estimate) -/

/-- Scale `scale = Math.sqrt(availableArea / totalArea) * 0.85` with
`totalArea = Σ srcW * srcH` and `availableArea = (res - 2 * padding)²`. -/
noncomputable def rowScale (pws : List PartWithSize) (res : ℚ) : ℝ :=
  Real.sqrt ((((res - BOX_PADDING * 2) ^ 2 : ℚ) : ℝ) /
    (((pws.map (fun p => p.srcW * p.srcH)).sum : ℚ) : ℝ)) * 0.85

/-- The running state of `packRow`: cursor, current row height, and the
parts placed so far. -/
structure RowState where
  curX : ℝ
  curY : ℝ
  rowHeight : ℝ
  placed : List PartWithSize

open Classical in
/-- One part of the `packRow` loop: wrap to a new row when the part would
cross the right edge, place the rounded rect, advance the cursor. -/
noncomputable def packRowStep (res : ℚ) (scale : ℝ) (st : RowState) (p : PartWithSize) :
    RowState :=
  let destW := (p.srcW : ℝ) * scale
  let destH := (p.srcH : ℝ) * scale
  let wrapped := st.curX + destW + (BOX_PADDING : ℝ) > (res : ℝ)
  let curX0 := if wrapped then ((BOX_PADDING : ℚ) : ℝ) else st.curX
  let curY0 := if wrapped then st.curY + st.rowHeight + ((BOX_PADDING : ℚ) : ℝ) else st.curY
  let rowH0 := if wrapped then 0 else st.rowHeight
  let rect : AtlasRect := ⟨jsRoundR curX0, jsRoundR curY0, jsRoundR destW, jsRoundR destH⟩
  { curX := curX0 + destW + ((BOX_PADDING : ℚ) : ℝ)
    curY := curY0
    rowHeight := max rowH0 destH
    placed := st.placed ++ [placeRect p rect] }

/-- Function `packRow`: lay parts left to right, wrapping rows. -/
noncomputable def packRow (pws : List PartWithSize) (res : ℚ) : List PartWithSize :=
  (pws.foldl (packRowStep res (rowScale pws res)) ⟨BOX_PADDING, BOX_PADDING, 0, []⟩).placed

/-- A single very wide part (1x984064 source pixels). -/
def demoWidePart : PartWithSize := ⟨degeneratePart, 0, 984064, 1⟩

theorem rowScale_demo : rowScale [demoWidePart] 1024 = 0.85 := by
  unfold rowScale
  have h1 : (([demoWidePart].map (fun p => p.srcW * p.srcH)).sum : ℚ) = 984064 := by
    norm_num [demoWidePart]
  have h2 : (((1024 : ℚ) - BOX_PADDING * 2) ^ 2 : ℚ) = 984064 := by
    norm_num [BOX_PADDING]
  rw [h1, h2]
  have h3 : ((984064 : ℚ) : ℝ) / ((984064 : ℚ) : ℝ) = 1 := by
    norm_num
  rw [h3, Real.sqrt_one, one_mul]

/-- The wrapped branch of `packRowStep` spelled out. -/
theorem packRowStep_wrapped (res : ℚ) (scale : ℝ) (st : RowState) (p : PartWithSize)
    (hw : st.curX + (p.srcW : ℝ) * scale + ((BOX_PADDING : ℚ) : ℝ) > (res : ℝ)) :
    packRowStep res scale st p =
      { curX := ((BOX_PADDING : ℚ) : ℝ) + (p.srcW : ℝ) * scale + ((BOX_PADDING : ℚ) : ℝ)
        curY := st.curY + st.rowHeight + ((BOX_PADDING : ℚ) : ℝ)
        rowHeight := max 0 ((p.srcH : ℝ) * scale)
        placed := st.placed ++ [placeRect p
          ⟨jsRoundR ((BOX_PADDING : ℚ) : ℝ),
           jsRoundR (st.curY + st.rowHeight + ((BOX_PADDING : ℚ) : ℝ)),
           jsRoundR ((p.srcW : ℝ) * scale),
           jsRoundR ((p.srcH : ℝ) * scale)⟩] } := by
  unfold packRowStep
  simp only [if_pos hw]

/-- C1 counterexample: packing the single part `demoWidePart` with the row
algorithm on the 1024 canvas yields a placement whose right edge
(x + w = 16 + 836454) lies far beyond `canvasSize - padding = 1008`, so the
claimed universal containment (and hence the claim over all three
algorithms) is false. -/
theorem packRow_overflow_counterexample :
    ∃ p ∈ packRow [demoWidePart] 1024, ∃ r ∈ p.part.atlasRect,
      (1024 : ℤ) - 16 < r.x + r.w := by
  have hscale := rowScale_demo
  unfold packRow
  rw [hscale]
  simp only [List.foldl_cons, List.foldl_nil]
  have hwrap : ((BOX_PADDING : ℚ) : ℝ) + (demoWidePart.srcW : ℝ) * 0.85 +
      ((BOX_PADDING : ℚ) : ℝ) > ((1024 : ℚ) : ℝ) := by
    norm_num [BOX_PADDING, demoWidePart]
  rw [packRowStep_wrapped 1024 0.85 ⟨BOX_PADDING, BOX_PADDING, 0, []⟩ demoWidePart hwrap]
  simp only [List.nil_append]
  simp only [Option.mem_def, List.mem_singleton]
  refine ⟨placeRect demoWidePart
      ⟨jsRoundR ((BOX_PADDING : ℚ) : ℝ),
       jsRoundR (((BOX_PADDING : ℚ) : ℝ) + 0 + ((BOX_PADDING : ℚ) : ℝ)),
       jsRoundR ((demoWidePart.srcW : ℝ) * 0.85),
       jsRoundR ((demoWidePart.srcH : ℝ) * 0.85)⟩, rfl,
    ⟨jsRoundR ((BOX_PADDING : ℚ) : ℝ),
     jsRoundR (((BOX_PADDING : ℚ) : ℝ) + 0 + ((BOX_PADDING : ℚ) : ℝ)),
     jsRoundR ((demoWidePart.srcW : ℝ) * 0.85),
     jsRoundR ((demoWidePart.srcH : ℝ) * 0.85)⟩, rfl, ?_⟩
  have hx : jsRoundR ((BOX_PADDING : ℚ) : ℝ) = 16 := by
    unfold jsRoundR
    rw [Int.floor_eq_iff]
    norm_num [BOX_PADDING]
  have hw : jsRoundR ((demoWidePart.srcW : ℝ) * 0.85) = 836454 := by
    unfold jsRoundR
    have harg : (demoWidePart.srcW : ℝ) * 0.85 = 836454.4 := by
      norm_num [demoWidePart]
    rw [harg, Int.floor_eq_iff]
    norm_num
  rw [hx, hw]
  norm_num

/-! ### MaxRects packing (guillotine splits, over ℝ) -/

/-- A free rectangle tracked by the maxrects packer. -/
structure FreeRectR where
  x : ℝ
  y : ℝ
  w : ℝ
  h : ℝ

/-- Scale `scale = Math.sqrt(availableArea / totalArea) * 0.9`. -/
noncomputable def maxRectsScale (pws : List PartWithSize) (res : ℚ) : ℝ :=
  Real.sqrt ((((res - BOX_PADDING * 2) ^ 2 : ℚ) : ℝ) /
    (((pws.map (fun p => p.srcW * p.srcH)).sum : ℚ) : ℝ)) * 0.9

open Classical in
/-- Scan the free-rect list for the fitting rect with the smallest score
`r.y + destH`, keeping the first index on ties (strict improvement only),
exactly as the `bestIdx` / `bestScore` loop does. -/
noncomputable def mrBest (destW destH : ℝ) :
    List FreeRectR → ℕ → Option (ℕ × FreeRectR × ℝ) → Option (ℕ × FreeRectR × ℝ)
  | [], _, best => best
  | r :: rest, i, best =>
    let fits := destW + ((BOX_PADDING : ℚ) : ℝ) ≤ r.w ∧ destH + ((BOX_PADDING : ℚ) : ℝ) ≤ r.h
    let score := r.y + destH
    let better : Prop :=
      match best with
      | none => fits
      | some b => fits ∧ score < b.2.2
    mrBest destW destH rest (i + 1) (if better then some (i, r, score) else best)

open Classical in
/-- Place one part: use the best free rect (splitting off right and bottom
remainders above the minimum usable size 20), or fall back to the canvas
origin corner when nothing fits. -/
noncomputable def packMaxRectsStep (scale : ℝ)
    (st : List FreeRectR × List (ℕ × AtlasRect)) (p : PartWithSize) :
    List FreeRectR × List (ℕ × AtlasRect) :=
  let destW := (p.srcW : ℝ) * scale
  let destH := (p.srcH : ℝ) * scale
  match mrBest destW destH st.1 0 none with
  | some (bestIdx, r, _) =>
    let rect : AtlasRect := ⟨jsRoundR r.x, jsRoundR r.y, jsRoundR destW, jsRoundR destH⟩
    let rightW := r.w - destW - ((BOX_PADDING : ℚ) : ℝ)
    let bottomH := r.h - destH - ((BOX_PADDING : ℚ) : ℝ)
    let newRects := (st.1.eraseIdx bestIdx)
      ++ (if rightW > 20 then
            [⟨r.x + destW + ((BOX_PADDING : ℚ) : ℝ), r.y, rightW, destH⟩] else [])
      ++ (if bottomH > 20 then
            [⟨r.x, r.y + destH + ((BOX_PADDING : ℚ) : ℝ), r.w, bottomH⟩] else [])
    (newRects, st.2 ++ [(p.index, rect)])
  | none =>
    (st.1, st.2 ++ [(p.index, ⟨16, 16, jsRoundR destW, jsRoundR destH⟩)])

open Classical in
/-- Function `packMaxRects`: sort by scaled height descending (stable, like the JS
sort comparator `b.srcH * scale - a.srcH * scale`), place each part in
sorted order, and hand the assignments back to the parts (the source
mutates the shared part objects, so the returned list keeps input order). -/
noncomputable def packMaxRects (pws : List PartWithSize) (res : ℚ) : List PartWithSize :=
  let scale := maxRectsScale pws res
  let sorted := pws.mergeSort (fun a b => decide (b.srcH * scale ≤ a.srcH * scale))
  let init : List FreeRectR :=
    [⟨((BOX_PADDING : ℚ) : ℝ), ((BOX_PADDING : ℚ) : ℝ),
      ((res : ℚ) : ℝ) - ((BOX_PADDING : ℚ) : ℝ) * 2,
      ((res : ℚ) : ℝ) - ((BOX_PADDING : ℚ) : ℝ) * 2⟩]
  let result := sorted.foldl (packMaxRectsStep scale) (init, [])
  pws.map (fun p =>
    match result.2.lookup p.index with
    | some rect => placeRect p rect
    | none => p)

inductive PackingAlgorithm where
  | row | grid | maxrects
  deriving DecidableEq

/-- The packing portion of `createAtlasPreparation`: size the parts from
the image width, then dispatch on the selected algorithm. -/
noncomputable def createAtlasPacking (parts : List GamePartE) (imgW : ℚ)
    (resolution : ℚ) (alg : PackingAlgorithm) : List PartWithSize :=
  match alg with
  | .grid => packGrid (calculatePartSizes parts imgW) resolution
  | .maxrects => packMaxRects (calculatePartSizes parts imgW) resolution
  | .row => packRow (calculatePartSizes parts imgW) resolution

/-- C7.  Packing is a deterministic function of its inputs: running the
computation twice on identical part lists, image width, resolution and
algorithm yields identical placements.  (The embedding is a pure function —
the source consults no randomness, clock or external state on this path,
and the ES2019 sort is stable and deterministic.) -/
theorem packing_deterministic (parts1 parts2 : List GamePartE) (w1 w2 res1 res2 : ℚ)
    (alg1 alg2 : PackingAlgorithm) (hp : parts1 = parts2) (hw : w1 = w2)
    (hres : res1 = res2) (halg : alg1 = alg2) :
    createAtlasPacking parts1 w1 res1 alg1 = createAtlasPacking parts2 w2 res2 alg2 := by
  subst hp hw hres halg
  rfl

/-- C7 witness: the theorem applied at a concrete input (both runs of the
maxrects algorithm on the same degenerate part and canvas agree). -/
theorem packing_deterministic_witness :
    createAtlasPacking [degeneratePart] 1024 1024 .maxrects =
      createAtlasPacking [degeneratePart] 1024 1024 .maxrects :=
  packing_deterministic [degeneratePart] [degeneratePart] 1024 1024 1024 1024
    .maxrects .maxrects rfl rfl rfl rfl

end NSprite
